import Mathlib

/-!
# Verification of the SWCCG local data layer (`src/mobile/src/services/database.ts`)

This file gives a shallow embedding of the data model and the operations of the
`database` service module (latest generation: `_metadata` version marker,
`variant_set_appearances` join table, stats cache with single-flight locking),
together with the rarity normalization helper (`normalizeRarity` from
`utils/rarityUtils`), and proves or refutes the frozen specification claims.

Conventions of the embedding:
* Strings are `List Char` (`Str`), so every operation is executable and decidable.
* SQLite tables are Lean lists of row structures; `INSERT OR REPLACE` is an
  upsert keyed on the table's primary key; a transaction is modeled by applying
  the statement sequence to a buffered copy of the tables and discarding it on
  failure (the semantics of `BEGIN`/`COMMIT`/`ROLLBACK`).
* Fallible storage statements are modeled by injecting an explicit failure
  point (`failAt`); JavaScript `throw`/`catch` becomes `Except`.
* Timestamps (`Date.now()`, `CURRENT_TIMESTAMP`) are `Nat` parameters.
-/

namespace Swccg

/-- Strings as lists of characters, so that all string processing is
executable and decidable. -/
abbrev Str := List Char

/-- Convert a Lean string literal to the `Str` representation. -/
def s2l (s : String) : Str := s.data

/-- The straight apostrophe character `'` (U+0027). -/
def apos : Char := Char.ofNat 39

/-- The hyphen character `-` (U+002D). -/
def hyph : Char := Char.ofNat 45

/-! ## Rarity normalization (`utils/rarityUtils.ts`, `normalizeRarity`) -/

/-- The four rarity buckets (`RarityCategory` in `rarityUtils.ts`). -/
inductive RarityCategory where
  | common
  | uncommon
  | rare
  | other
deriving DecidableEq, Repr

/-- Embedding of `normalizeRarity` from `utils/rarityUtils.ts`:
`if (!rarity) return 'other'` (so `null`/`undefined`/empty string give
`other`), then the uppercased code is tested with `startsWith` for
`'C'`, `'U'`, `'R'` in that order, everything else is `other`.
A missing (`NULL`) rarity is the `none` case. -/
def normalizeRarity (rarity : Option Str) : RarityCategory :=
  match rarity with
  | none => .other
  | some s =>
    if s = [] then .other
    else
      match s.map Char.toUpper with
      | [] => .other
      | c :: _ =>
        if c = 'C' then .common
        else if c = 'U' then .uncommon
        else if c = 'R' then .rare
        else .other

/-- The rarity-bucket rule as the specification words it: the bucket is
determined case-insensitively by the *first letter* of the rarity code,
`C`→common, `U`→uncommon, `R`→rare, anything else (including an absent
rarity) → other.  Written with `Char.toLower` so that agreement with
`normalizeRarity` (which uppercases) is exactly the case-insensitivity
the claim asserts. -/
def specRarityBucket (rarity : Option Str) : RarityCategory :=
  match rarity with
  | none => .other
  | some [] => .other
  | some (c :: _) =>
    if c.toLower = 'c' then .common
    else if c.toLower = 'u' then .uncommon
    else if c.toLower = 'r' then .rare
    else .other

/-! ## Data model

Tables of the two SQLite stores (`ENCYCLOPEDIA_SCHEMA`, `COLLECTION_SCHEMA`)
as lists of row structures. -/

/-- A row of the `sets` table. -/
structure SetRow where
  id : Str
  name : Str
  abbreviation : Option Str := none
  release_date : Option Str := none
  icon_path : Option Str := none
deriving DecidableEq, Repr

/-- A row of the `cards` table. -/
structure CardRow where
  id : Str
  name : Str
  side : Str
  type : Str
  icon : Option Str := none
deriving DecidableEq, Repr

/-- A row of the `set_cards` table (primary key `(set_id, card_id)`). -/
structure SetCardRow where
  set_id : Str
  card_id : Str
  card_number : Str
  rarity : Option Str := none
deriving DecidableEq, Repr

/-- A row of the `variants` table (primary key `id`). -/
structure VariantRow where
  id : Str
  card_id : Str
  name : Str
  code : Str
  details : Option Str := none
  pricing_id : Option Nat := none
deriving DecidableEq, Repr

/-- A row of the `variant_set_appearances` table (primary key `(set_id, variant_id)`). -/
structure AppearanceRow where
  set_id : Str
  variant_id : Str
  card_number : Str
  rarity : Option Str := none
deriving DecidableEq, Repr

/-- A row of the `card_pricing` table (`id` is the AUTOINCREMENT key, `pc_id` is UNIQUE). -/
structure PricingRow where
  id : Nat
  card_name : Str
  pc_id : Int
  pc_card_name : Str
  pc_set_name : Str
  ungraded_price : Option Int := none
  grade_7_price : Option Int := none
  grade_8_price : Option Int := none
  grade_9_price : Option Int := none
  grade_10_price : Option Int := none
  pc_last_updated_time : Str := []
deriving DecidableEq, Repr

/-- A row of the `collection` table (primary key `variant_id`). -/
structure CollectionRow where
  variant_id : Str
  quantity : Int
  updated_at : Nat
deriving DecidableEq, Repr

/-- The Encyclopedia store: its tables plus the `db_version` metadata row
(`none` = no metadata row, i.e. never initialized).  `nextPricingId` models
the AUTOINCREMENT counter of `card_pricing`. -/
structure EncDb where
  metadata : Option Int := none
  sets : List SetRow := []
  cards : List CardRow := []
  set_cards : List SetCardRow := []
  variants : List VariantRow := []
  appearances : List AppearanceRow := []
  card_pricing : List PricingRow := []
  nextPricingId : Nat := 1
deriving DecidableEq, Repr

/-- One `{owned, total}` pair of the completion statistics. -/
structure RarityStat where
  owned : Nat
  total : Nat
deriving DecidableEq, Repr

/-- The `SetCompletionStats` record exactly as the source interface declares it. -/
structure SetCompletionStats where
  total : RarityStat
  common : RarityStat
  uncommon : RarityStat
  rare : RarityStat
  other : RarityStat
deriving DecidableEq, Repr

/-- Whole database state: Encyclopedia store, Collection store, and the
stats cache (`statsCache.cache`: Set id ↦ (data, timestamp)). -/
structure DbState where
  enc : EncDb := {}
  coll : List CollectionRow := []
  cache : List (Str × SetCompletionStats × Nat) := []
deriving DecidableEq, Repr

/-! ## Completion statistics (`calculateSetCompletionStats`) -/

/-- Query 1 of `calculateSetCompletionStats`:
`SELECT sc.card_id, sc.rarity, v.id FROM set_cards sc JOIN variants v ON
v.card_id = sc.card_id WHERE sc.set_id = ?` — all `(cardId, rarity, variantId)`
triples for the set, with set membership taken from `set_cards`. -/
def setTriples (enc : EncDb) (setId : Str) : List (Str × Option Str × Str) :=
  (enc.set_cards.filter (fun sc => sc.set_id = setId)).flatMap
    (fun sc => (enc.variants.filter (fun v => v.card_id = sc.card_id)).map
      (fun v => (sc.card_id, sc.rarity, v.id)))

/-- Membership test of Query 2 (`SELECT variant_id FROM collection WHERE
variant_id IN (…) AND quantity > 0`) for a single variant id. -/
def collOwnedPos (coll : List CollectionRow) (vid : Str) : Bool :=
  coll.any (fun e => e.variant_id = vid ∧ e.quantity > 0)

/-- First-occurrence grouping of the triples by card id, keeping each card's
first rarity: the loop body of the `uniqueCards` JavaScript `Map`
(`if (!uniqueCards.has(cv.card_id)) uniqueCards.set(cv.card_id, cv.rarity)`),
with `seen` the set of keys already in the map.  Result order is
first-occurrence order, as for a JavaScript `Map`. -/
def firstKeyedAux (seen : List Str) :
    List (Str × Option Str × Str) → List (Str × Option Str)
  | [] => []
  | t :: rest =>
    if t.1 ∈ seen then firstKeyedAux seen rest
    else (t.1, t.2.1) :: firstKeyedAux (t.1 :: seen) rest

/-- The `uniqueCards` map of `calculateSetCompletionStats`, as its entry list. -/
def firstKeyed (l : List (Str × Option Str × Str)) : List (Str × Option Str) :=
  firstKeyedAux [] l

/-- The per-card ownership computed by the `cardOwnership` map: a card is
owned exactly when some triple of that card carries an owned variant
(in the loop, a card once set to `true` is never unset). -/
def cardOwnedB (triples : List (Str × Option Str × Str)) (ownedIds : List Str)
    (c : Str) : Bool :=
  triples.any (fun t => t.1 = c ∧ t.2.2 ∈ ownedIds)

/-- The body of the final counting loop of `calculateSetCompletionStats`:
bump the bucket totals for one unique card, and the owned counts when the
card is owned.  `stats.total.total` was preset and is not touched here. -/
def bump (s : SetCompletionStats) (r : Option Str) (owned : Bool) : SetCompletionStats :=
  let s1 :=
    match normalizeRarity r with
    | .common => { s with common := { s.common with total := s.common.total + 1 } }
    | .uncommon => { s with uncommon := { s.uncommon with total := s.uncommon.total + 1 } }
    | .rare => { s with rare := { s.rare with total := s.rare.total + 1 } }
    | .other => { s with other := { s.other with total := s.other.total + 1 } }
  if owned then
    let s2 := { s1 with total := { s1.total with owned := s1.total.owned + 1 } }
    match normalizeRarity r with
    | .common => { s2 with common := { s2.common with owned := s2.common.owned + 1 } }
    | .uncommon => { s2 with uncommon := { s2.uncommon with owned := s2.uncommon.owned + 1 } }
    | .rare => { s2 with rare := { s2.rare with owned := s2.rare.owned + 1 } }
    | .other => { s2 with other := { s2.other with owned := s2.other.owned + 1 } }
  else s1

/-- Embedding of `calculateSetCompletionStats`: two bulk queries
(`setTriples`, then the owned-variant lookup over the distinct variant ids)
followed by the in-memory fold. -/
def calculateSetCompletionStats (enc : EncDb) (coll : List CollectionRow)
    (setId : Str) : SetCompletionStats :=
  let triples := setTriples enc setId
  let vids := (triples.map (fun t => t.2.2)).dedup
  let ownedIds := vids.filter (fun vid => collOwnedPos coll vid)
  let uniq := firstKeyed triples
  uniq.foldl (fun s cr => bump s cr.2 (cardOwnedB triples ownedIds cr.1))
    { total := ⟨0, uniq.length⟩, common := ⟨0, 0⟩, uncommon := ⟨0, 0⟩,
      rare := ⟨0, 0⟩, other := ⟨0, 0⟩ }

/-! ### The counts the code computes, stated declaratively

These definitions state the counting rule of `calculateSetCompletionStats`
declaratively, for the refinement proof.  They deliberately follow the
relations the code itself uses — the superseded `(set, card)` link of
`set_cards` joined to *all* of a card's variants — and are therefore **not**
the appearance-based counts the specification words (those are
`specAppearanceStats` below, and the two disagree). -/

/-- The distinct card ids among the code's Query-1 triples: the cards linked
to the set via a `set_cards` row that have at least one variant (a card with
zero variants produces no triple and is excluded). -/
def linkedUniqueCards (enc : EncDb) (setId : Str) : List Str :=
  ((setTriples enc setId).map (fun t => t.1)).dedup

/-- The rarity the code buckets a card by: the rarity of its `set_cards`
row for the set (not the rarity of a `variant_set_appearances` row). -/
def linkedCardRarity (enc : EncDb) (setId : Str) (c : Str) : Option Str :=
  match (enc.set_cards.filter (fun sc => sc.set_id = setId)).find?
      (fun sc => sc.card_id = c) with
  | some sc => sc.rarity
  | none => none

/-- The ownership the code computes: a card counts as owned when any one
variant of the card anywhere in the encyclopedia has quantity > 0 — not
only the variants appearing in the given set. -/
def cardAnyVariantOwned (enc : EncDb) (coll : List CollectionRow) (c : Str) : Bool :=
  enc.variants.any (fun v => v.card_id = c ∧ collOwnedPos coll v.id)

/-- The code's completion counts stated declaratively (the amended C4):
`{total, common, uncommon, rare, other} × {owned, total}` counts over the
unique cards linked to the set via `set_cards` that have at least one
variant; a card owned once if any one of its variants (in any set) has
quantity > 0; buckets by the case-insensitive first-letter rule applied to
the `set_cards` rarity. -/
def linkedCardStats (enc : EncDb) (coll : List CollectionRow) (setId : Str) :
    SetCompletionStats :=
  let cs := linkedUniqueCards enc setId
  let ow := fun c => cardAnyVariantOwned enc coll c
  let bk := fun c => specRarityBucket (linkedCardRarity enc setId c)
  { total := ⟨cs.countP ow, cs.length⟩,
    common := ⟨cs.countP (fun c => ow c ∧ bk c = .common),
               cs.countP (fun c => bk c = .common)⟩,
    uncommon := ⟨cs.countP (fun c => ow c ∧ bk c = .uncommon),
                 cs.countP (fun c => bk c = .uncommon)⟩,
    rare := ⟨cs.countP (fun c => ow c ∧ bk c = .rare),
             cs.countP (fun c => bk c = .rare)⟩,
    other := ⟨cs.countP (fun c => ow c ∧ bk c = .other),
              cs.countP (fun c => bk c = .other)⟩ }

/-! ### The statistics as the specification words them -/

/-- The `(cardId, rarity, variantId)` triples for the set's *appearances*,
as the specification's data model words it: the `variant_set_appearances`
rows of the set, each joined to `variants` for the card link, carrying the
appearance's rarity. -/
def vsaTriples (enc : EncDb) (setId : Str) : List (Str × Option Str × Str) :=
  (enc.appearances.filter (fun a => a.set_id = setId)).filterMap
    (fun a => (enc.variants.find? (fun v => v.id = a.variant_id)).map
      (fun v => (v.card_id, a.rarity, a.variant_id)))

/-- The completion statistics exactly as the specification words them:
counts over the unique cards appearing in the set via
`variant_set_appearances`, a card owned once if any one qualifying variant
(a variant of the card appearing in this set) has quantity > 0, the card's
rarity taken from its appearance, buckets by the case-insensitive
first-letter rule. -/
def specAppearanceStats (enc : EncDb) (coll : List CollectionRow)
    (setId : Str) : SetCompletionStats :=
  let ts := vsaTriples enc setId
  let cs := (ts.map (fun t => t.1)).dedup
  let ow := fun c => ts.any (fun t => t.1 = c ∧ collOwnedPos coll t.2.2)
  let rar := fun c =>
    match ts.find? (fun t => t.1 = c) with
    | some t => t.2.1
    | none => none
  let bk := fun c => specRarityBucket (rar c)
  { total := ⟨cs.countP ow, cs.length⟩,
    common := ⟨cs.countP (fun c => ow c ∧ bk c = .common),
               cs.countP (fun c => bk c = .common)⟩,
    uncommon := ⟨cs.countP (fun c => ow c ∧ bk c = .uncommon),
                 cs.countP (fun c => bk c = .uncommon)⟩,
    rare := ⟨cs.countP (fun c => ow c ∧ bk c = .rare),
             cs.countP (fun c => bk c = .rare)⟩,
    other := ⟨cs.countP (fun c => ow c ∧ bk c = .other),
              cs.countP (fun c => bk c = .other)⟩ }

/-- The block of triples a single `set_cards` row contributes to Query 1. -/
def blockOf (enc : EncDb) (sc : SetCardRow) : List (Str × Option Str × Str) :=
  (enc.variants.filter (fun v => v.card_id = sc.card_id)).map
    (fun v => (sc.card_id, sc.rarity, v.id))

/-! ## Stats cache (`StatsCache`) and the single-flight lock map -/

/-- The cache TTL: 30 seconds (`private TTL = 30000`). -/
def statsTTL : Nat := 30000

/-- The lookup `this.cache.get(setId)` on the underlying `Map`. -/
def cacheFind (cache : List (Str × SetCompletionStats × Nat)) (setId : Str) :
    Option (SetCompletionStats × Nat) :=
  (cache.find? (fun e => e.1 = setId)).map (fun e => e.2)

/-- Embedding of `StatsCache.get`: a hit within TTL returns the data; a stale entry is
deleted (`this.cache.delete(setId)`); the returned list is the cache after
the call. -/
def statsCacheGet (cache : List (Str × SetCompletionStats × Nat)) (setId : Str)
    (now : Nat) : Option SetCompletionStats × List (Str × SetCompletionStats × Nat) :=
  match cacheFind cache setId with
  | some (d, ts) =>
    if now - ts < statsTTL then (some d, cache)
    else (none, cache.filter (fun e => ¬(e.1 = setId)))
  | none => (none, cache)

/-- Embedding of `StatsCache.set`: `Map.set` keeps an existing key in place and appends a
new key at the end. -/
def statsCacheSet (cache : List (Str × SetCompletionStats × Nat)) (setId : Str)
    (d : SetCompletionStats) (now : Nat) : List (Str × SetCompletionStats × Nat) :=
  if cache.any (fun e => e.1 = setId) then
    cache.map (fun e => if e.1 = setId then (setId, d, now) else e)
  else cache ++ [(setId, d, now)]

/-- Embedding of `StatsCache.invalidate(setId)`: `Map.delete`. -/
def statsCacheInvalidate (cache : List (Str × SetCompletionStats × Nat))
    (setId : Str) : List (Str × SetCompletionStats × Nat) :=
  cache.filter (fun e => ¬(e.1 = setId))

/-- State of the statistics engine: the cache, the `statsLocks` map
(Set id ↦ identifier of the in-flight computation), a counter supplying fresh
computation identifiers, and a log of every computation ever started (one
entry per underlying bulk-query pair issued). -/
structure StatsEngine where
  cache : List (Str × SetCompletionStats × Nat) := []
  locks : List (Str × Nat) := []
  nextPid : Nat := 0
  startedLog : List (Str × Nat) := []
deriving DecidableEq, Repr

/-- What the synchronous prefix of `getSetCompletionStats` does for a caller:
return a cached value, join an in-flight computation, or start a new one. -/
inductive EnterOutcome where
  | hit (d : SetCompletionStats)
  | joins (pid : Nat)
  | starts (pid : Nat)
deriving DecidableEq, Repr

/-- The synchronous prefix of `getSetCompletionStats` (no `await` between
these steps, so under the cooperative scheduler it runs atomically):
check the cache; then check `statsLocks` and return the existing promise when
present; otherwise start `calculateSetCompletionStats` and register the new
promise in `statsLocks`. -/
def statsEnter (e : StatsEngine) (setId : Str) (now : Nat) :
    EnterOutcome × StatsEngine :=
  match statsCacheGet e.cache setId now with
  | (some d, cache') => (.hit d, { e with cache := cache' })
  | (none, cache') =>
    match e.locks.find? (fun l => l.1 = setId) with
    | some l => (.joins l.2, { e with cache := cache' })
    | none =>
      (.starts e.nextPid,
       { cache := cache',
         locks := (setId, e.nextPid) :: e.locks,
         nextPid := e.nextPid + 1,
         startedLog := e.startedLog ++ [(setId, e.nextPid)] })

/-- The completion continuation of the caller that started the computation
(`try { … statsCache.set(setId, result) … } finally { statsLocks.delete(setId) }`):
on success (`some d`) the result is stored with a fresh timestamp, and the
lock is cleared in both the success and the failure case. -/
def statsSettle (e : StatsEngine) (setId : Str)
    (outcome : Option SetCompletionStats) (now : Nat) : StatsEngine :=
  let e1 :=
    match outcome with
    | some d => { e with cache := statsCacheSet e.cache setId d now }
    | none => e
  { e1 with locks := e1.locks.filter (fun l => ¬(l.1 = setId)) }

/-! ## Collection mutation (`updateVariantQuantity`) -/

/-- The statement `DELETE FROM collection WHERE variant_id = ?`. -/
def collDelete (coll : List CollectionRow) (v : Str) : List CollectionRow :=
  coll.filter (fun e => ¬(e.variant_id = v))

/-- The statement `INSERT … ON CONFLICT(variant_id) DO UPDATE SET quantity, updated_at`. -/
def collUpsert (coll : List CollectionRow) (v : Str) (q : Int) (now : Nat) :
    List CollectionRow :=
  if coll.any (fun e => e.variant_id = v) then
    coll.map (fun e => if e.variant_id = v then ⟨v, q, now⟩ else e)
  else coll ++ [⟨v, q, now⟩]

/-- The per-set cache-invalidation loop of `updateVariantQuantity`
(`for (const set of sets) statsCache.invalidate(set.set_id)`). -/
def invalidateSets (cache : List (Str × SetCompletionStats × Nat))
    (sids : List Str) : List (Str × SetCompletionStats × Nat) :=
  sids.foldl (fun c sid => statsCacheInvalidate c sid) cache

/-- Embedding of `updateVariantQuantity`: quantity 0 deletes the row,
anything else upserts it (no validation of sign or of variant existence);
then the caches of all sets that contain the variant's card **via
`set_cards`** are invalidated — the lookup is
`SELECT card_id FROM variants WHERE id = ?` followed by
`SELECT set_id FROM set_cards WHERE card_id = ?` (not
`variant_set_appearances`); an unknown variant id invalidates nothing. -/
def updateVariantQuantity (st : DbState) (variantId : Str) (quantity : Int)
    (now : Nat) : DbState :=
  let coll' :=
    if quantity = 0 then collDelete st.coll variantId
    else collUpsert st.coll variantId quantity now
  let cache' :=
    match st.enc.variants.find? (fun v => v.id = variantId) with
    | some vr =>
      invalidateSets st.cache
        ((st.enc.set_cards.filter (fun sc => sc.card_id = vr.card_id)).map
          (fun sc => sc.set_id))
    | none => st.cache
  { st with coll := coll', cache := cache' }

/-- The quantity a read sees for a variant:
`result?.quantity || 0` over `SELECT quantity FROM collection WHERE variant_id = ?`
(the `|| 0` maps both an absent row and a stored 0 to 0). -/
def readQuantity (coll : List CollectionRow) (v : Str) : Int :=
  match coll.find? (fun e => e.variant_id = v) with
  | some e => if e.quantity = 0 then 0 else e.quantity
  | none => 0

/-- The value a statistics reader obtains at time `now`: the cached value on
a fresh hit, otherwise the result of a fresh `calculateSetCompletionStats`. -/
def getStatsRead (st : DbState) (setId : Str) (now : Nat) : SetCompletionStats :=
  match (statsCacheGet st.cache setId now).1 with
  | some d => d
  | none => calculateSetCompletionStats st.enc st.coll setId

/-! ## Card ordering in a set (`getCardsInSet`) -/

/-- SQLite `CAST(x AS INTEGER)` on our data: the value of the longest digit
prefix, 0 when there is none. -/
def castTextInt : Str → Nat :=
  let rec go : Str → Nat → Nat
    | [], acc => acc
    | c :: cs, acc => if c.isDigit then go cs (acc * 10 + (c.toNat - 48)) else acc
  fun s => go s 0

/-- The expression `REPLACE(REPLACE(x, 'R', ''), 'P', '')`: remove all `R` and `P`
characters (upper case only, as in the SQL). -/
def stripRP (s : Str) : Str := s.filter (fun c => ¬(c = 'R' ∨ c = 'P'))

/-- The test `card_number GLOB '[0-9]*'`: the first character is a digit. -/
def globNum : Str → Bool
  | [] => false
  | c :: _ => c.isDigit

/-- The two ORDER BY keys of `getCardsInSet`: the numeric-first CASE flag,
then `CAST(REPLACE(REPLACE(n,'R',''),'P','') AS INTEGER)`. -/
def orderKey (n : Str) : Nat × Nat :=
  (if globNum n then 0 else 1, castTextInt (stripRP n))

/-- The ORDER BY relation on the (card id, card number) result rows. -/
def rowLe (x y : Str × Str) : Prop :=
  (orderKey x.2).1 < (orderKey y.2).1 ∨
    ((orderKey x.2).1 = (orderKey y.2).1 ∧ (orderKey x.2).2 ≤ (orderKey y.2).2)

instance : DecidableRel rowLe := fun x y => by
  unfold rowLe; infer_instance

instance : IsTotal (Str × Str) rowLe :=
  ⟨fun x y => by unfold rowLe; omega⟩

instance : IsTrans (Str × Str) rowLe :=
  ⟨fun x y z hxy hyz => by unfold rowLe at hxy hyz ⊢; omega⟩

/-- The unsorted GROUP BY result of the `getCardsInSet` query: one row per
distinct card appearing in the set via `variant_set_appearances` joined to
`variants` and `cards`, carrying `MIN(vsa.card_number)` (string minimum,
SQLite BINARY collation = codepoint order). -/
def cardsInSetRaw (enc : EncDb) (setId : Str) : List (Str × Str) :=
  let joined := (enc.appearances.filter (fun a => a.set_id = setId)).filterMap
    (fun a => (enc.variants.find? (fun v => v.id = a.variant_id)).bind
      (fun v => (enc.cards.find? (fun c => c.id = v.card_id)).map
        (fun c => (c.id, a.card_number))))
  let cids := (joined.map (fun r => r.1)).dedup
  cids.map (fun cid =>
    let nums := (joined.filter (fun r => r.1 = cid)).map (fun r => r.2)
    (cid, match nums with
          | [] => []
          | n :: ns => ns.foldl (fun a b => min a b) n))

/-- Embedding of `getCardsInSet`, restricted to the data the ordering claim is about:
the (card id, displayed card number) rows in the ORDER BY order (the
variant/quantity enrichment of each row does not alter the order). -/
def getCardsInSet (enc : EncDb) (setId : Str) : List (Str × Str) :=
  List.insertionSort rowLe (cardsInSetRaw enc setId)

/-! ## Name search (`normalizeSearchString`, `searchCardsByName`) -/

/-- The characters of the apostrophe-variant class
`[‘’‚‛′`´'']`. -/
def apostropheChars : List Char :=
  [Char.ofNat 0x2018, Char.ofNat 0x2019, Char.ofNat 0x201A, Char.ofNat 0x201B,
   Char.ofNat 0x2032, Char.ofNat 0x60, Char.ofNat 0xB4, apos]

/-- The characters of the dash-variant class `[–—―]`. -/
def dashChars : List Char :=
  [Char.ofNat 0x2013, Char.ofNat 0x2014, Char.ofNat 0x2015]

/-- Embedding of `normalizeSearchString`: lower-case, then map every
apostrophe variant to `'` and every dash variant to `-`. -/
def normalizeSearchString (s : Str) : Str :=
  ((s.map Char.toLower).map
    (fun c => if c ∈ apostropheChars then apos else c)).map
    (fun c => if c ∈ dashChars then hyph else c)

/-- The replacement `.replace(/['\-\s]/g, '')`: drop apostrophes, hyphens and whitespace
(the fuzzy form of a string). -/
def fuzzyStrip (s : Str) : Str :=
  s.filter (fun c => ¬(c = apos ∨ c = hyph ∨ c.isWhitespace))

/-- JavaScript `hay.includes(needle)`. -/
def strIncludes (hay needle : Str) : Bool :=
  match hay with
  | [] => decide (needle = [])
  | _ :: t => needle.isPrefixOf hay || strIncludes t needle

/-- First-occurrence deduplication by key (a JavaScript-`Map`-style
grouping); `seen` holds the keys already emitted. -/
def firstByKeyAux {α κ : Type} [DecidableEq κ] (key : α → κ) (seen : List κ) :
    List α → List α
  | [] => []
  | x :: rest =>
    if key x ∈ seen then firstByKeyAux key seen rest
    else x :: firstByKeyAux key (key x :: seen) rest

/-- One row per distinct `(name, side, type, icon)` group of `cards`, with
`MIN(c.id)` (the GROUP BY of the search query). -/
def searchGroups (enc : EncDb) : List CardRow :=
  (firstByKeyAux (fun c : CardRow => (c.name, c.side, c.type, c.icon)) []
      enc.cards).map
    (fun c =>
      let ids := (enc.cards.filter (fun d =>
        d.name = c.name ∧ d.side = c.side ∧ d.type = c.type ∧ d.icon = c.icon)).map
        (fun d => d.id)
      { c with id := match ids with
                     | [] => c.id
                     | i :: is => is.foldl (fun a b => min a b) i })

/-- The ranking relation of the search results: exact-normalized matches
(priority 1) before fuzzy-only matches (priority 2), ties broken
alphabetically by card name (`localeCompare` modeled as the codepoint
lexicographic order). -/
def searchRel (a b : CardRow × Nat) : Prop :=
  a.2 < b.2 ∨ (a.2 = b.2 ∧ a.1.name ≤ b.1.name)

instance : DecidableRel searchRel := fun a b => by
  unfold searchRel; infer_instance

instance : IsTotal (CardRow × Nat) searchRel :=
  ⟨fun a b => by
    unfold searchRel
    rcases Nat.lt_trichotomy a.2 b.2 with h | h | h
    · exact Or.inl (Or.inl h)
    · rcases le_total a.1.name b.1.name with hn | hn
      · exact Or.inl (Or.inr ⟨h, hn⟩)
      · exact Or.inr (Or.inr ⟨h.symm, hn⟩)
    · exact Or.inr (Or.inl h)⟩

instance : IsTrans (CardRow × Nat) searchRel :=
  ⟨fun a b c hab hbc => by
    unfold searchRel at hab hbc ⊢
    rcases hab with h1 | ⟨h1, hn1⟩ <;> rcases hbc with h2 | ⟨h2, hn2⟩
    · exact Or.inl (h1.trans h2)
    · exact Or.inl (h2 ▸ h1)
    · exact Or.inl (h1 ▸ h2)
    · exact Or.inr ⟨h1.trans h2, hn1.trans hn2⟩⟩

/-- Embedding of `searchCardsByName`, error-free path: the grouped card rows
that match the normalized query as a substring (priority 1) or whose fuzzy
form contains the fuzzy query (priority 2), sorted by priority then name.
(The per-row variant/pricing enrichment downstream does not change which
cards are returned or their order.) -/
def searchCardsByName (enc : EncDb) (q : Str) : List (CardRow × Nat) :=
  let nq := normalizeSearchString q
  let fq := fuzzyStrip nq
  let found := (searchGroups enc).filterMap (fun c =>
    let nn := normalizeSearchString c.name
    let fn := fuzzyStrip nn
    let ex := strIncludes nn nq
    let fz := strIncludes fn fq
    if ex || fz then some (c, if ex then 1 else 2) else none)
  List.insertionSort searchRel found

/-! ## Versioned seeding (`seedEncyclopedia`) -/

/-- The `DatabaseStatus` union (`'first-time' | 'migration' | 'up-to-date'`). -/
inductive SeedStatus where
  | firstTime
  | migration
  | upToDate
deriving DecidableEq, Repr

/-- The source constant `DB_VERSION = 29`. -/
def DB_VERSION : Int := 29

/-- Embedding of `checkDatabaseStatus`: no `db_version` metadata row means first-time,
a stored version below `DB_VERSION` means migration, otherwise up-to-date. -/
def checkDatabaseStatus (enc : EncDb) : SeedStatus :=
  match enc.metadata with
  | none => .firstTime
  | some v => if v < DB_VERSION then .migration else .upToDate

/-- A variant input row of the seed dataset (no `pricing_id`: the insert
lists only `(id, card_id, name, code, details)`). -/
structure VariantInput where
  id : Str
  card_id : Str
  name : Str
  code : Str
  details : Option Str := none
deriving DecidableEq, Repr

/-- A pricing input row of the seed dataset. -/
structure PricingInput where
  card_name : Str
  pc_id : Int
  pc_card_name : Str := []
  pc_set_name : Str := []
  ungraded_price : Option Int := none
  grade_7_price : Option Int := none
  grade_8_price : Option Int := none
  grade_9_price : Option Int := none
  grade_10_price : Option Int := none
  pc_last_updated_time : Str := []
deriving DecidableEq, Repr

/-- The in-memory target dataset passed to `seedEncyclopedia`. -/
structure Dataset where
  sets : List SetRow := []
  cards : List CardRow := []
  setCards : List SetCardRow := []
  variants : List VariantInput := []
  variantSetAppearances : List AppearanceRow := []
  pricingData : Option (List PricingInput) := none
  variantPricingMappings : Option (List (Str × Int)) := none
deriving DecidableEq, Repr

/-- The statement form `INSERT OR REPLACE` keyed on a primary key: an existing row with the
same key is overwritten in place, a new key is appended. -/
def upsertBy {α κ : Type} [DecidableEq κ] (key : α → κ) (l : List α) (x : α) :
    List α :=
  if l.any (fun y => key y = key x) then
    l.map (fun y => if key y = key x then x else y)
  else l ++ [x]

def upsertManyBy {α κ : Type} [DecidableEq κ] (key : α → κ) (l : List α)
    (xs : List α) : List α :=
  xs.foldl (upsertBy key) l

/-- The statement `INSERT OR REPLACE INTO card_pricing …` for one row: the UNIQUE `pc_id`
conflict replaces the old row, and the new row takes a fresh AUTOINCREMENT id. -/
def insPricingOne (enc : EncDb) (p : PricingInput) : EncDb :=
  { enc with
    card_pricing := ((enc.card_pricing.filter (fun r => ¬(r.pc_id = p.pc_id))) ++
      [⟨enc.nextPricingId, p.card_name, p.pc_id, p.pc_card_name, p.pc_set_name,
        p.ungraded_price, p.grade_7_price, p.grade_8_price, p.grade_9_price,
        p.grade_10_price, p.pc_last_updated_time⟩]),
    nextPricingId := enc.nextPricingId + 1 }

/-- The variant→pricing mapping pass: resolve each external `pc_id` to the
internal `card_pricing.id` and set `variants.pricing_id` for every variant
that has a mapping whose `pc_id` was found. -/
def applyMappings (ms : List (Str × Int)) (enc : EncDb) : EncDb :=
  { enc with
    variants := (enc.variants.map (fun v =>
      match ms.find? (fun m => m.1 = v.id) with
      | some m =>
        match (enc.card_pricing.find? (fun r => r.pc_id = m.2)).map
            (fun r => r.id) with
        | some iid => { v with pricing_id := some iid }
        | none => v
      | none => v)) }

/-- The statements of the seeding transaction, in source order: bulk inserts
for sets (plain INSERT), cards, set_cards, variants, variant_set_appearances
(all `INSERT OR REPLACE`), then the optional pricing insert and the optional
mapping UPDATE (each present only when its input is non-empty). -/
def insSetsStmt (ds : Dataset) (enc : EncDb) : EncDb :=
  { enc with sets := enc.sets ++ ds.sets }

def insCardsStmt (ds : Dataset) (enc : EncDb) : EncDb :=
  { enc with cards := upsertManyBy (fun c => c.id) enc.cards ds.cards }

def insSetCardsStmt (ds : Dataset) (enc : EncDb) : EncDb :=
  { enc with set_cards :=
      upsertManyBy (fun sc => (sc.set_id, sc.card_id)) enc.set_cards ds.setCards }

def insVariantsStmt (ds : Dataset) (enc : EncDb) : EncDb :=
  { enc with variants :=
      (upsertManyBy (fun v => v.id) enc.variants
        (ds.variants.map (fun v => ⟨v.id, v.card_id, v.name, v.code, v.details, none⟩))) }

def insAppearancesStmt (ds : Dataset) (enc : EncDb) : EncDb :=
  { enc with appearances :=
      (upsertManyBy (fun a => (a.set_id, a.variant_id)) enc.appearances
        ds.variantSetAppearances) }

def txStatements (ds : Dataset) : List (EncDb → EncDb) :=
  [insSetsStmt ds, insCardsStmt ds, insSetCardsStmt ds, insVariantsStmt ds,
   insAppearancesStmt ds]
  ++ (match ds.pricingData with
      | some ps => if ps = [] then [] else [fun enc => ps.foldl insPricingOne enc]
      | none => [])
  ++ (match ds.variantPricingMappings with
      | some ms => if ms = [] then [] else [applyMappings ms]
      | none => [])

/-- Run the transaction statements; `failAt = some k` makes the `k`-th
remaining statement raise a storage error (`Except.error`), modeling an
insert failure at an arbitrary point of the sequence. -/
def runTx : List (EncDb → EncDb) → Option Nat → EncDb → Except Unit EncDb
  | [], _, enc => .ok enc
  | _ :: _, some 0, _ => .error ()
  | f :: fs, some (k + 1), enc => runTx fs (some k) (f enc)
  | f :: fs, none, enc => runTx fs none (f enc)

/-- Embedding of `seedEncyclopedia` (`reconcile`):
1. compute the status; `upToDate` returns immediately with no writes;
2. `migration` drops and recreates all six data tables (the `_metadata`
   table is **not** dropped, so the old version marker survives);
   `firstTime` clears `sets`, `cards`, `set_cards`, `variants` only;
3. run the insert sequence inside `BEGIN TRANSACTION`; on any statement
   failure the transaction is rolled back (the tables revert to their
   pre-`BEGIN` state) and the error propagates;
4. after COMMIT, upsert the `db_version` metadata row;
5. on a `migration` run, delete every collection row whose variant id is
   not in the rebuilt `variants` table;
6. clear the whole stats cache. -/
def seedEncyclopedia (ds : Dataset) (failAt : Option Nat) (st : DbState) :
    Except Unit SeedStatus × DbState :=
  match checkDatabaseStatus st.enc with
  | .upToDate => (.ok .upToDate, st)
  | status =>
    let enc0 :=
      if status = .migration then
        { st.enc with sets := [], cards := [], set_cards := [], variants := [],
                      appearances := [], card_pricing := [], nextPricingId := 1 }
      else
        { st.enc with sets := [], cards := [], set_cards := [], variants := [] }
    match runTx (txStatements ds) failAt enc0 with
    | .error _ => (.error (), { st with enc := enc0 })
    | .ok enc1 =>
      let enc2 := { enc1 with metadata := some DB_VERSION }
      let coll' :=
        if status = .migration then
          st.coll.filter (fun e => e.variant_id ∈ enc2.variants.map (fun v => v.id))
        else st.coll
      (.ok status, { enc := enc2, coll := coll', cache := [] })

/-! ## Pricing lookups (`getVariantPricing`, `getBatchVariantPricing`) -/

/-- The join `card_pricing cp INNER JOIN variants v ON v.pricing_id = cp.id
WHERE v.id = ?`. -/
def pricingLookup (enc : EncDb) (v : Str) : Option PricingRow :=
  (enc.variants.find? (fun vr => vr.id = v)).bind
    (fun vr => vr.pricing_id.bind
      (fun pid => enc.card_pricing.find? (fun r => r.id = pid)))

/-- Embedding of `getVariantPricing`.  `encOpen` models
`encyclopediaDb !== null`; `failQ` models the underlying query throwing.
The guard throws `Error('Encyclopedia database not initialized')`; the
`catch` converts a query failure into `null`. -/
def getVariantPricing (enc : EncDb) (encOpen : Bool) (failQ : Bool) (v : Str) :
    Except Unit (Option PricingRow) :=
  if ¬encOpen then .error ()
  else if failQ then .ok none
  else .ok (pricingLookup enc v)

/-- Embedding of `getBatchVariantPricing`: the not-initialized guard throws;
an empty id list returns the empty map before any query; the single bulk
query's failure is caught and the map built so far (empty) is returned. -/
def getBatchVariantPricing (enc : EncDb) (encOpen : Bool) (failQ : Bool)
    (vids : List Str) : Except Unit (List (Str × PricingRow)) :=
  if ¬encOpen then .error ()
  else if vids = [] then .ok []
  else if failQ then .ok []
  else .ok (vids.filterMap (fun v => (pricingLookup enc v).map (fun p => (v, p))))

/-! ## Orderings claimed by the spec, and concrete claim data -/

/-- The card ordering exactly as the claim words it: numeric card numbers
first in ascending numeric order, then all non-numeric card numbers compared
as text. -/
def c6ClaimRel (x y : Str × Str) : Prop :=
  if globNum x.2 then
    (if globNum y.2 then castTextInt x.2 ≤ castTextInt y.2 else True)
  else
    (if globNum y.2 then False else x.2 ≤ y.2)

instance : DecidableRel c6ClaimRel := fun x y => by
  unfold c6ClaimRel; infer_instance

/-- The card ordering the code actually produces: numeric-prefixed card
numbers first, and inside each group ascending by the integer value of the
card number with its `R` and `P` characters removed. -/
def c6CodeRel (x y : Str × Str) : Prop :=
  if globNum x.2 then
    (if globNum y.2 then
       castTextInt (stripRP x.2) ≤ castTextInt (stripRP y.2)
     else True)
  else
    (if globNum y.2 then False
     else castTextInt (stripRP x.2) ≤ castTextInt (stripRP y.2))

instance : DecidableRel c6CodeRel := fun x y => by
  unfold c6CodeRel; infer_instance

/-- C6 counterexample encyclopedia: one set whose two cards carry the
non-numeric card numbers `P2` and `P10`. -/
def encP : EncDb :=
  { cards := [⟨s2l "cA", s2l "A", s2l "light", s2l "t", none⟩,
              ⟨s2l "cB", s2l "B", s2l "light", s2l "t", none⟩],
    variants := [⟨s2l "vA", s2l "cA", [], [], none, none⟩,
                 ⟨s2l "vB", s2l "cB", [], [], none, none⟩],
    appearances := [⟨s2l "S", s2l "vA", s2l "P2", none⟩,
                    ⟨s2l "S", s2l "vB", s2l "P10", none⟩] }

/-- C6 example encyclopedia: one set with card numbers 2, 10, 1 and P1. -/
def encC6 : EncDb :=
  { cards := [⟨s2l "c1", s2l "A", s2l "light", s2l "t", none⟩,
              ⟨s2l "c2", s2l "B", s2l "light", s2l "t", none⟩,
              ⟨s2l "c3", s2l "C", s2l "light", s2l "t", none⟩,
              ⟨s2l "c4", s2l "D", s2l "light", s2l "t", none⟩],
    variants := [⟨s2l "v1", s2l "c1", [], [], none, none⟩,
                 ⟨s2l "v2", s2l "c2", [], [], none, none⟩,
                 ⟨s2l "v3", s2l "c3", [], [], none, none⟩,
                 ⟨s2l "v4", s2l "c4", [], [], none, none⟩],
    appearances := [⟨s2l "S", s2l "v1", s2l "2", none⟩,
                    ⟨s2l "S", s2l "v2", s2l "10", none⟩,
                    ⟨s2l "S", s2l "v3", s2l "1", none⟩,
                    ⟨s2l "S", s2l "v4", s2l "P1", none⟩] }

/-- C8 example encyclopedia: a card named `Han's Speeder` (straight
apostrophe) and an unrelated card. -/
def encH : EncDb :=
  { cards := [⟨s2l "hs", s2l "Han's Speeder", s2l "light", s2l "vehicle", none⟩,
              ⟨s2l "mf", s2l "Millennium Falcon", s2l "light", s2l "starship", none⟩] }

/-- The query `Han’s` with the curly apostrophe U+2019. -/
def qCurly : Str := s2l "Han" ++ [Char.ofNat 0x2019] ++ s2l "s"

/-! # Theorems -/

theorem char_toNat_ofNat (k : Nat) (h : k < 55296) : (Char.ofNat k).toNat = k := by
  have hv : Nat.isValidChar k := Or.inl h
  simp only [Char.ofNat]
  rw [dif_pos hv]
  rfl

theorem char_toUpper_toNat (c : Char) :
    c.toUpper.toNat = if 97 ≤ c.toNat ∧ c.toNat ≤ 122 then c.toNat - 32 else c.toNat := by
  simp only [Char.toUpper]
  split
  · rename_i h
    exact char_toNat_ofNat _ (by omega)
  · rfl

theorem char_toLower_toNat (c : Char) :
    c.toLower.toNat = if 65 ≤ c.toNat ∧ c.toNat ≤ 90 then c.toNat + 32 else c.toNat := by
  simp only [Char.toLower]
  split
  · rename_i h
    exact char_toNat_ofNat _ (by omega)
  · rfl

theorem char_eq_iff_toNat (c d : Char) : c = d ↔ c.toNat = d.toNat := by
  constructor
  · intro h; rw [h]
  · intro h
    have := congrArg Char.ofNat h
    rwa [Char.ofNat_toNat, Char.ofNat_toNat] at this

/-- Case-insensitivity bridge: uppercasing a character yields a given capital
letter exactly when lowercasing yields the corresponding small letter. -/
theorem char_upper_lower_iff (c : Char) (U L : Char)
    (hU : U.toNat + 32 = L.toNat) (hUr : 65 ≤ U.toNat ∧ U.toNat ≤ 90) :
    (c.toUpper = U ↔ c.toLower = L) := by
  rw [char_eq_iff_toNat c.toUpper U, char_eq_iff_toNat c.toLower L]
  rw [char_toUpper_toNat, char_toLower_toNat]
  split <;> split <;> omega

/-- The function `normalizeRarity` implements exactly the spec's case-insensitive
first-letter rule. -/
theorem normalizeRarity_eq_specRarityBucket (r : Option Str) :
    normalizeRarity r = specRarityBucket r := by
  match r with
  | none => rfl
  | some [] => rfl
  | some (c :: cs) =>
    have hC : c.toUpper = 'C' ↔ c.toLower = 'c' :=
      char_upper_lower_iff c 'C' 'c' (by decide) (by decide)
    have hU : c.toUpper = 'U' ↔ c.toLower = 'u' :=
      char_upper_lower_iff c 'U' 'u' (by decide) (by decide)
    have hR : c.toUpper = 'R' ↔ c.toLower = 'r' :=
      char_upper_lower_iff c 'R' 'r' (by decide) (by decide)
    simp [normalizeRarity, specRarityBucket, hC, hU, hR]

theorem setTriples_eq_flatMap (enc : EncDb) (setId : Str) :
    setTriples enc setId =
      (enc.set_cards.filter (fun sc => sc.set_id = setId)).flatMap (blockOf enc) := rfl



/-! ### Character-case lemmas were above; refinement proof: `calculateSetCompletionStats` = the spec's counts -/

theorem firstKeyedAux_skip (tail : List (Str × Option Str × Str)) :
    ∀ (l : List (Str × Option Str × Str)) (seen : List Str),
    (∀ t ∈ l, t.1 ∈ seen) →
    firstKeyedAux seen (l ++ tail) = firstKeyedAux seen tail
  | [], _, _ => rfl
  | t :: rest, seen, h => by
    simp only [List.cons_append, firstKeyedAux, if_pos (h t (List.mem_cons_self t rest))]
    exact firstKeyedAux_skip tail rest seen (fun u hu => h u (List.mem_cons_of_mem t hu))

/-- Characterization of the `uniqueCards` map: when the set's `set_cards`
rows have pairwise distinct card ids (the `(set_id, card_id)` primary key),
the map holds, in order, one `(card id, rarity)` entry per row that has at
least one variant. -/
theorem firstKeyedAux_flatMap (enc : EncDb) :
    ∀ (L : List SetCardRow) (seen : List Str),
    (L.map (fun sc => sc.card_id)).Nodup →
    (∀ sc ∈ L, sc.card_id ∉ seen) →
    firstKeyedAux seen (L.flatMap (blockOf enc)) =
      (L.filter (fun sc =>
        ¬(enc.variants.filter (fun v => v.card_id = sc.card_id) = []))).map
        (fun sc => (sc.card_id, sc.rarity))
  | [], _, _, _ => rfl
  | sc :: rest, seen, hnd, hseen => by
    have hndTail : (rest.map (fun sc => sc.card_id)).Nodup :=
      (List.nodup_cons.mp hnd).2
    have hhead : sc.card_id ∉ rest.map (fun sc => sc.card_id) :=
      (List.nodup_cons.mp hnd).1
    rw [List.flatMap_cons]
    cases hv : enc.variants.filter (fun v => v.card_id = sc.card_id) with
    | nil =>
      have hblock : blockOf enc sc = [] := by simp [blockOf, hv]
      rw [hblock, List.nil_append,
        firstKeyedAux_flatMap enc rest seen hndTail
          (fun u hu => hseen u (List.mem_cons_of_mem sc hu))]
      rw [List.filter_cons_of_neg (by simp [hv])]
    | cons v vs =>
      have hblock : blockOf enc sc =
          (sc.card_id, sc.rarity, v.id) ::
            vs.map (fun w => (sc.card_id, sc.rarity, w.id)) := by
        simp [blockOf, hv]
      have hskipArg : ∀ t ∈ vs.map (fun w => (sc.card_id, sc.rarity, w.id)),
          t.1 ∈ sc.card_id :: seen := by
        intro t ht
        obtain ⟨w, _, hw⟩ := List.mem_map.mp ht
        rw [← hw]
        exact List.mem_cons_self _ _
      have hrest : ∀ u ∈ rest, u.card_id ∉ sc.card_id :: seen := by
        intro u hu
        simp only [List.mem_cons]
        push_neg
        exact ⟨fun heq => hhead (heq ▸ List.mem_map_of_mem (fun sc => sc.card_id) hu),
               hseen u (List.mem_cons_of_mem sc hu)⟩
      rw [hblock, List.cons_append]
      simp only [firstKeyedAux]
      rw [if_neg (hseen sc (List.mem_cons_self sc rest))]
      rw [firstKeyedAux_skip (rest.flatMap (blockOf enc)) _ _ hskipArg]
      rw [firstKeyedAux_flatMap enc rest (sc.card_id :: seen) hndTail hrest]
      rw [List.filter_cons_of_pos (by simp [hv])]
      rfl

/-- Unrolling the counting loop: starting from accumulator `s`, the loop adds
to each bucket the number of unique cards in that bucket, and to each `owned`
field the number of owned unique cards in that bucket. -/
theorem foldl_bump (ow : Str → Bool) :
    ∀ (L : List (Str × Option Str)) (s : SetCompletionStats),
    L.foldl (fun acc cr => bump acc cr.2 (ow cr.1)) s =
    { total := ⟨s.total.owned + L.countP (fun cr => ow cr.1), s.total.total⟩,
      common := ⟨s.common.owned +
          L.countP (fun cr => ow cr.1 ∧ normalizeRarity cr.2 = .common),
        s.common.total + L.countP (fun cr => normalizeRarity cr.2 = .common)⟩,
      uncommon := ⟨s.uncommon.owned +
          L.countP (fun cr => ow cr.1 ∧ normalizeRarity cr.2 = .uncommon),
        s.uncommon.total + L.countP (fun cr => normalizeRarity cr.2 = .uncommon)⟩,
      rare := ⟨s.rare.owned +
          L.countP (fun cr => ow cr.1 ∧ normalizeRarity cr.2 = .rare),
        s.rare.total + L.countP (fun cr => normalizeRarity cr.2 = .rare)⟩,
      other := ⟨s.other.owned +
          L.countP (fun cr => ow cr.1 ∧ normalizeRarity cr.2 = .other),
        s.other.total + L.countP (fun cr => normalizeRarity cr.2 = .other)⟩ }
  | [], s => by simp
  | cr :: L, s => by
    rw [List.foldl_cons, foldl_bump ow L]
    cases hcat : normalizeRarity cr.2 <;> cases how : ow cr.1 <;>
      simp [bump, hcat, how, List.countP_cons] <;> omega

/-- In a list whose keys are pairwise distinct, `find?` by an element's key
returns that element. -/
theorem find_key_nodup {α κ : Type} [DecidableEq κ] (key : α → κ) :
    ∀ (L : List α), (L.map key).Nodup → ∀ a ∈ L,
    L.find? (fun x => key x = key a) = some a
  | [], _, a, ha => absurd ha (List.not_mem_nil a)
  | b :: rest, hnd, a, ha => by
    by_cases hb : key b = key a
    · have hab : b = a := by
        rcases List.mem_cons.mp ha with h | h
        · exact h.symm
        · exact absurd (hb ▸ List.mem_map_of_mem key h)
            (List.nodup_cons.mp hnd).1
      rw [List.find?_cons_of_pos _ (by simp [hb])]
      rw [hab]
    · rw [List.find?_cons_of_neg _ (by simp [hb])]
      have ha' : a ∈ rest := by
        rcases List.mem_cons.mp ha with h | h
        · exact absurd (h ▸ rfl) hb
        · exact h
      exact find_key_nodup key rest (List.nodup_cons.mp hnd).2 a ha'

theorem mem_setTriples {enc : EncDb} {setId : Str} {t : Str × Option Str × Str} :
    t ∈ setTriples enc setId ↔
      ∃ sc ∈ enc.set_cards, sc.set_id = setId ∧
        ∃ v ∈ enc.variants, v.card_id = sc.card_id ∧
          t = (sc.card_id, sc.rarity, v.id) := by
  constructor
  · intro h
    simp only [setTriples, List.mem_flatMap, List.mem_filter, List.mem_map,
      decide_eq_true_eq] at h
    obtain ⟨sc, ⟨hmem, hset⟩, v, ⟨hvmem, hvc⟩, heq⟩ := h
    exact ⟨sc, hmem, hset, v, hvmem, hvc, heq.symm⟩
  · rintro ⟨sc, hmem, hset, v, hvmem, hvc, heq⟩
    simp only [setTriples, List.mem_flatMap, List.mem_filter, List.mem_map,
      decide_eq_true_eq]
    exact ⟨sc, ⟨hmem, hset⟩, v, ⟨hvmem, hvc⟩, heq.symm⟩

/-- The per-card result of the `cardOwnership` map agrees with the spec's
ownership: a card of the set is owned exactly when one of its variants has
quantity > 0. -/
theorem cardOwnedB_eq_spec (enc : EncDb) (coll : List CollectionRow) (setId c : Str)
    (hc : ∃ sc, sc ∈ enc.set_cards ∧ sc.set_id = setId ∧ sc.card_id = c) :
    cardOwnedB (setTriples enc setId)
      (((setTriples enc setId).map (fun t => t.2.2)).dedup.filter
        (fun vid => collOwnedPos coll vid)) c
    = cardAnyVariantOwned enc coll c := by
  obtain ⟨sc, hsc, hset, hcard⟩ := hc
  rw [Bool.eq_iff_iff]
  simp only [cardOwnedB, cardAnyVariantOwned, List.any_eq_true, decide_eq_true_eq]
  constructor
  · rintro ⟨t, htT, htc, hto⟩
    obtain ⟨sc', _, _, v, hvmem, hvc, hteq⟩ := mem_setTriples.mp htT
    refine ⟨v, hvmem, ?_, ?_⟩
    · rw [hvc, ← htc, hteq]
    · have := (List.mem_filter.mp hto).2
      rwa [hteq] at this
  · rintro ⟨v, hvmem, hvc, hpos⟩
    have htT : (sc.card_id, sc.rarity, v.id) ∈ setTriples enc setId :=
      mem_setTriples.mpr ⟨sc, hsc, hset, v, hvmem, hvc.trans hcard.symm, rfl⟩
    refine ⟨(sc.card_id, sc.rarity, v.id), htT, hcard, ?_⟩
    refine List.mem_filter.mpr ⟨List.mem_dedup.mpr ?_, hpos⟩
    exact List.mem_map.mpr ⟨(sc.card_id, sc.rarity, v.id), htT, rfl⟩

/-- Transporting a count over the `uniqueCards` entry list to a count over
the distinct card ids. -/
theorem countP_transport {cs : List Str} (L : List (Str × Option Str))
    (q : Str × Option Str → Bool) (P : Str → Bool)
    (hq : ∀ cr ∈ L, q cr = P cr.1) (hPerm : List.Perm (L.map Prod.fst) cs) :
    L.countP q = cs.countP P := by
  have h1 : L.countP q = L.countP (fun cr => P cr.1) :=
    List.countP_congr (fun cr hcr => by rw [hq cr hcr])
  have h2 : L.countP (fun cr => P cr.1) = (L.map Prod.fst).countP P :=
    (List.countP_map P Prod.fst L).symm
  rw [h1, h2]
  exact hPerm.countP_eq P

/-- C4 amended: on a database whose `set_cards` rows for the set respect
the `(set_id, card_id)` primary key, `calculateSetCompletionStats` computes
per-bucket owned/total counts over the unique cards linked to the set via
`set_cards` that have at least one variant (`linkedCardStats`) — not over
the `variant_set_appearances` membership the specification words: a card
counts as owned once if any one variant of the card, in any set, has
quantity > 0, and its bucket is the case-insensitive first-letter rule
(C→common, U→uncommon, R→rare, else other) applied to its `set_cards`
rarity code. -/
theorem c4_completionStats_spec (enc : EncDb) (coll : List CollectionRow) (setId : Str)
    (hpk : ((enc.set_cards.filter (fun sc => sc.set_id = setId)).map
      (fun sc => sc.card_id)).Nodup) :
    calculateSetCompletionStats enc coll setId = linkedCardStats enc coll setId := by
  have hL : firstKeyed (setTriples enc setId) =
      ((enc.set_cards.filter (fun sc => sc.set_id = setId)).filter (fun sc =>
        ¬(enc.variants.filter (fun v => v.card_id = sc.card_id) = []))).map
        (fun sc => (sc.card_id, sc.rarity)) := by
    rw [firstKeyed, setTriples_eq_flatMap]
    exact firstKeyedAux_flatMap enc _ [] hpk (fun sc _ => List.not_mem_nil _)
  have hmapfst : (firstKeyed (setTriples enc setId)).map Prod.fst =
      ((enc.set_cards.filter (fun sc => sc.set_id = setId)).filter (fun sc =>
        ¬(enc.variants.filter (fun v => v.card_id = sc.card_id) = []))).map
        (fun sc => sc.card_id) := by
    rw [hL, List.map_map]
    rfl
  have hnd : ((firstKeyed (setTriples enc setId)).map Prod.fst).Nodup := by
    rw [hmapfst]
    exact ((List.filter_sublist _).map (fun sc : SetCardRow => sc.card_id)).nodup hpk
  have hPerm : List.Perm ((firstKeyed (setTriples enc setId)).map Prod.fst)
      (linkedUniqueCards enc setId) := by
    refine (List.perm_ext_iff_of_nodup hnd (List.nodup_dedup _)).mpr ?_
    intro c
    rw [List.mem_dedup, hmapfst]
    constructor
    · intro hcmem
      obtain ⟨sc, hscmem, hsceq⟩ := List.mem_map.mp hcmem
      have hsc2 := List.mem_filter.mp hscmem
      have hne : enc.variants.filter (fun v => v.card_id = sc.card_id) ≠ [] := by
        have := hsc2.2
        simpa using this
      obtain ⟨v, hv⟩ := List.exists_mem_of_ne_nil _ hne
      have hv2 := List.mem_filter.mp hv
      have hsc3 := List.mem_filter.mp hsc2.1
      refine List.mem_map.mpr ⟨(sc.card_id, sc.rarity, v.id), ?_, hsceq⟩
      refine mem_setTriples.mpr ⟨sc, hsc3.1, ?_, v, hv2.1, ?_, rfl⟩
      · simpa using hsc3.2
      · simpa using hv2.2
    · intro hcmem
      obtain ⟨t, htT, hteq⟩ := List.mem_map.mp hcmem
      obtain ⟨sc, hscmem, hset, v, hvmem, hvc, htv⟩ := mem_setTriples.mp htT
      refine List.mem_map.mpr ⟨sc, ?_, ?_⟩
      · refine List.mem_filter.mpr ⟨List.mem_filter.mpr ⟨hscmem, by simpa using hset⟩, ?_⟩
        have hvin : v ∈ enc.variants.filter (fun w => w.card_id = sc.card_id) :=
          List.mem_filter.mpr ⟨hvmem, by simpa using hvc⟩
        simpa using List.ne_nil_of_mem hvin
      · rw [← hteq, htv]
  have hF2 : ∀ cr ∈ firstKeyed (setTriples enc setId),
      cr.2 = linkedCardRarity enc setId cr.1 := by
    intro cr hcr
    rw [hL] at hcr
    obtain ⟨sc, hscmem, hsceq⟩ := List.mem_map.mp hcr
    have hscS : sc ∈ enc.set_cards.filter (fun x => x.set_id = setId) :=
      (List.mem_filter.mp hscmem).1
    have hfind : (enc.set_cards.filter (fun x => x.set_id = setId)).find?
        (fun x => x.card_id = sc.card_id) = some sc :=
      find_key_nodup (fun x : SetCardRow => x.card_id) _ hpk sc hscS
    rw [← hsceq]
    show sc.rarity = linkedCardRarity enc setId sc.card_id
    simp only [linkedCardRarity]
    rw [hfind]
  have hF1 : ∀ cr ∈ firstKeyed (setTriples enc setId),
      cardOwnedB (setTriples enc setId)
        (((setTriples enc setId).map (fun t => t.2.2)).dedup.filter
          (fun vid => collOwnedPos coll vid)) cr.1
      = cardAnyVariantOwned enc coll cr.1 := by
    intro cr hcr
    rw [hL] at hcr
    obtain ⟨sc, hscmem, hsceq⟩ := List.mem_map.mp hcr
    have hscS := List.mem_filter.mp (List.mem_filter.mp hscmem).1
    refine cardOwnedB_eq_spec enc coll setId cr.1 ⟨sc, hscS.1, by simpa using hscS.2, ?_⟩
    rw [← hsceq]
  have hlen : (firstKeyed (setTriples enc setId)).length =
      (linkedUniqueCards enc setId).length := by
    rw [← List.length_map (firstKeyed (setTriples enc setId)) Prod.fst]
    exact hPerm.length_eq
  simp only [calculateSetCompletionStats, linkedCardStats]
  rw [foldl_bump (cardOwnedB (setTriples enc setId)
    (((setTriples enc setId).map (fun t => t.2.2)).dedup.filter
      (fun vid => collOwnedPos coll vid)))]
  simp only [SetCompletionStats.mk.injEq, RarityStat.mk.injEq, Nat.zero_add]
  refine ⟨⟨?_, hlen⟩, ⟨?_, ?_⟩, ⟨?_, ?_⟩, ⟨?_, ?_⟩, ⟨?_, ?_⟩⟩
  · exact countP_transport _ _ _ (fun cr hcr => hF1 cr hcr) hPerm
  · refine countP_transport _ _ _ (fun cr hcr => ?_) hPerm
    simp only [hF1 cr hcr, hF2 cr hcr, normalizeRarity_eq_specRarityBucket]
  · refine countP_transport _ _ _ (fun cr hcr => ?_) hPerm
    simp only [hF2 cr hcr, normalizeRarity_eq_specRarityBucket]
  · refine countP_transport _ _ _ (fun cr hcr => ?_) hPerm
    simp only [hF1 cr hcr, hF2 cr hcr, normalizeRarity_eq_specRarityBucket]
  · refine countP_transport _ _ _ (fun cr hcr => ?_) hPerm
    simp only [hF2 cr hcr, normalizeRarity_eq_specRarityBucket]
  · refine countP_transport _ _ _ (fun cr hcr => ?_) hPerm
    simp only [hF1 cr hcr, hF2 cr hcr, normalizeRarity_eq_specRarityBucket]
  · refine countP_transport _ _ _ (fun cr hcr => ?_) hPerm
    simp only [hF2 cr hcr, normalizeRarity_eq_specRarityBucket]
  · refine countP_transport _ _ _ (fun cr hcr => ?_) hPerm
    simp only [hF1 cr hcr, hF2 cr hcr, normalizeRarity_eq_specRarityBucket]
  · refine countP_transport _ _ _ (fun cr hcr => ?_) hPerm
    simp only [hF2 cr hcr, normalizeRarity_eq_specRarityBucket]

/-! ### Shared helper lemmas about keyed lists -/

/-- After filtering out every element with key `k`, a search by key `k`
finds nothing. -/
theorem find_key_filter_ne {α κ : Type} [DecidableEq κ] (key : α → κ)
    (l : List α) (k : κ) :
    (l.filter (fun a => ¬(key a = k))).find? (fun a => key a = k) = none := by
  rw [List.find?_eq_none]
  intro x hx
  have h := (List.mem_filter.mp hx).2
  simp only [decide_eq_true_eq] at h ⊢
  simpa using h

/-- In-place replacement of the rows keyed `v`: when some row has key `v`,
`find?` by that key returns the replacement row. -/
theorem find_map_upsert (v : Str) (q : Int) (now : Nat) :
    ∀ (coll : List CollectionRow), (∃ e ∈ coll, e.variant_id = v) →
    (coll.map (fun e =>
      if e.variant_id = v then (⟨v, q, now⟩ : CollectionRow) else e)).find?
      (fun e => e.variant_id = v) = some ⟨v, q, now⟩
  | [], h => absurd h (by simp)
  | e :: rest, h => by
    by_cases he : e.variant_id = v
    · simp only [List.map_cons, if_pos he]
      rw [List.find?_cons_of_pos _ (by simp)]
    · simp only [List.map_cons, if_neg he]
      rw [List.find?_cons_of_neg _ (by simpa using he)]
      apply find_map_upsert v q now rest
      obtain ⟨e1, he1, hk⟩ := h
      rcases List.mem_cons.mp he1 with h1 | h1
      · exact absurd (h1 ▸ hk) he
      · exact ⟨e1, h1, hk⟩

/-- An upsert keyed on `v` leaves the row `⟨v, q, now⟩` as the `find?`
result for key `v`. -/
theorem find_key_upsert_self (coll : List CollectionRow) (v : Str) (q : Int)
    (now : Nat) :
    (collUpsert coll v q now).find? (fun e => e.variant_id = v) = some ⟨v, q, now⟩ := by
  rw [collUpsert]
  split
  · rename_i hany
    obtain ⟨e0, he0, hk0⟩ := List.any_eq_true.mp hany
    exact find_map_upsert v q now coll ⟨e0, he0, by simpa using hk0⟩
  · rename_i hany
    rw [List.find?_append]
    have h1 : coll.find? (fun e => e.variant_id = v) = none := by
      rw [List.find?_eq_none]
      intro x hx hcontra
      exact hany (List.any_eq_true.mpr ⟨x, hx, hcontra⟩)
    rw [h1]
    simp

/-! ### C9 — sparse ledger law -/

/-- C9: `updateVariantQuantity(v, 0)` deletes the collection row for `v`
(a subsequent read returns 0 and no row exists); `updateVariantQuantity(v, 3)`
then `updateVariantQuantity(v, 0)` leaves the collection store exactly as it
was when `v` had no row (indistinguishable from never set); and every update
preserves the invariant that no stored row has quantity 0 (quantity 0 ⇔ no
row present). -/
theorem c9_sparse_ledger (st : DbState) (v : Str) (q : Int) (n1 n2 : Nat) :
    ((updateVariantQuantity st v 0 n1).coll.find? (fun e => e.variant_id = v) = none
      ∧ readQuantity (updateVariantQuantity st v 0 n1).coll v = 0)
    ∧ ((¬ ∃ e ∈ st.coll, e.variant_id = v) →
        (updateVariantQuantity (updateVariantQuantity st v 3 n1) v 0 n2).coll = st.coll)
    ∧ ((∀ e ∈ st.coll, e.quantity ≠ 0) →
        ∀ e ∈ (updateVariantQuantity st v q n1).coll, e.quantity ≠ 0) := by
  have hdel : ∀ (s : DbState) (n : Nat),
      (updateVariantQuantity s v 0 n).coll = collDelete s.coll v := by
    intro s n
    simp [updateVariantQuantity]
  have hfind0 : (updateVariantQuantity st v 0 n1).coll.find?
      (fun e => e.variant_id = v) = none := by
    rw [hdel, collDelete]
    exact find_key_filter_ne (fun e => e.variant_id) st.coll v
  refine ⟨⟨hfind0, ?_⟩, ?_, ?_⟩
  · rw [readQuantity, hfind0]
  · intro hno
    have hup : (updateVariantQuantity st v 3 n1).coll = st.coll ++ [⟨v, 3, n1⟩] := by
      simp only [updateVariantQuantity]
      rw [if_neg (by omega), collUpsert, if_neg ?hne]
      case hne =>
        intro hany
        obtain ⟨e, he, hk⟩ := List.any_eq_true.mp hany
        exact hno ⟨e, he, by simpa using hk⟩
    rw [hdel, hup, collDelete, List.filter_append]
    have h2 : ([(⟨v, 3, n1⟩ : CollectionRow)].filter
        (fun e => ¬(e.variant_id = v))) = [] := by simp
    rw [h2, List.append_nil, List.filter_eq_self]
    intro e he
    simp only [decide_eq_true_eq]
    intro hcontra
    exact hno ⟨e, he, by simpa using hcontra⟩
  · intro hinv e he
    simp only [updateVariantQuantity] at he
    by_cases hq : q = 0
    · rw [if_pos hq, collDelete] at he
      exact hinv e (List.mem_filter.mp he).1
    · rw [if_neg hq, collUpsert] at he
      split at he
      · obtain ⟨e0, he0, heq⟩ := List.mem_map.mp he
        by_cases hk : e0.variant_id = v
        · rw [if_pos hk] at heq
          rw [← heq]
          exact hq
        · rw [if_neg hk] at heq
          rw [← heq]
          exact hinv e0 he0
      · rcases List.mem_append.mp he with h | h
        · exact hinv e h
        · simp only [List.mem_singleton] at h
          rw [h]
          exact hq

/-- Witness state for the collection-mutation claims: one pre-existing row
for a different variant. -/
def stW : DbState :=
  { coll := [⟨s2l "w", 2, 0⟩] }

theorem c9_sparse_ledger_witness :
    (updateVariantQuantity (updateVariantQuantity stW (s2l "x") 3 5) (s2l "x") 0 9).coll
      = stW.coll :=
  (c9_sparse_ledger stW (s2l "x") 0 5 9).2.1 (by decide)

/-! ### C7 — argument validation of `updateVariantQuantity` -/

/-- C7 counterexample: `updateVariantQuantity` does **not** reject a negative
quantity or an unknown variant id.  In the empty state (no variants at all),
`updateVariantQuantity("ghost", -1)` violates both conditions of the claim,
yet the call takes effect: a collection row `("ghost", -1)` is created, so
the collection store is not left unchanged and nothing is rejected. -/
theorem c7_counterexample :
    (-1 : Int) < 0
    ∧ ({} : DbState).enc.variants = []
    ∧ (updateVariantQuantity {} (s2l "ghost") (-1) 0).coll
        = [⟨s2l "ghost", -1, 0⟩]
    ∧ ¬((updateVariantQuantity {} (s2l "ghost") (-1) 0).coll
        = ({} : DbState).coll) := by
  refine ⟨by decide, rfl, ?_, ?_⟩ <;> decide

/-- C7 amended: `updateVariantQuantity` performs no argument validation; it
never fails.  For every state, variant id and quantity, a nonzero quantity
(negative included, unknown variant id included) is upserted as the row's new
quantity, and quantity 0 deletes the row. -/
theorem c7_no_validation (st : DbState) (v : Str) (q : Int) (now : Nat) :
    (q ≠ 0 → (updateVariantQuantity st v q now).coll.find?
        (fun e => e.variant_id = v) = some ⟨v, q, now⟩)
    ∧ (q = 0 → (updateVariantQuantity st v q now).coll.find?
        (fun e => e.variant_id = v) = none) := by
  constructor
  · intro hq
    simp only [updateVariantQuantity]
    rw [if_neg hq]
    exact find_key_upsert_self st.coll v q now
  · intro hq
    subst hq
    simp only [updateVariantQuantity, if_pos rfl, collDelete]
    exact find_key_filter_ne (fun e => e.variant_id) st.coll v

theorem c7_no_validation_witness :
    (updateVariantQuantity {} (s2l "ghost") (-1) 0).coll.find?
      (fun e => e.variant_id = s2l "ghost") = some ⟨s2l "ghost", -1, 0⟩ :=
  (c7_no_validation {} (s2l "ghost") (-1) 0).1 (by decide)

/-! ### C10 — pricing lookups never propagate a storage error -/

/-- C10: with the store initialized (`encOpen = true`), `getVariantPricing`
and `getBatchVariantPricing` never return an error: the batch lookup returns
the empty map for an empty id list whatever the storage would do, a failing
query makes the single lookup return `null` and the batch lookup return the
map built so far (empty, as the one bulk query is the first storage touch),
and otherwise the successful results are returned. -/
theorem c10_pricing_no_throw (enc : EncDb) (vids : List Str) (v : Str) (fq : Bool) :
    (∃ r, getVariantPricing enc true fq v = .ok r)
    ∧ (fq = true → getVariantPricing enc true fq v = .ok none)
    ∧ (∀ fq2 : Bool, getBatchVariantPricing enc true fq2 [] = .ok [])
    ∧ (∃ m, getBatchVariantPricing enc true fq vids = .ok m)
    ∧ (fq = true → vids ≠ [] → getBatchVariantPricing enc true fq vids = .ok []) := by
  refine ⟨?_, ?_, ?_, ?_, ?_⟩
  · cases fq
    · exact ⟨pricingLookup enc v, rfl⟩
    · exact ⟨none, rfl⟩
  · intro h
    subst h
    rfl
  · intro fq2
    rfl
  · by_cases hv : vids = []
    · subst hv
      exact ⟨[], rfl⟩
    · cases fq
      · refine ⟨vids.filterMap (fun u => (pricingLookup enc u).map (fun p => (u, p))), ?_⟩
        simp [getBatchVariantPricing, hv]
      · refine ⟨[], ?_⟩
        simp [getBatchVariantPricing, hv]
  · intro hfq hv
    subst hfq
    simp [getBatchVariantPricing, hv]

theorem c10_pricing_no_throw_witness :
    getVariantPricing {} true true (s2l "v") = .ok none
    ∧ getBatchVariantPricing {} true true [s2l "v"] = .ok [] :=
  ⟨(c10_pricing_no_throw {} [s2l "v"] (s2l "v") true).2.1 rfl,
   (c10_pricing_no_throw {} [s2l "v"] (s2l "v") true).2.2.2.2 rfl (by decide)⟩

/-! ### C3 — cache invalidation on mutation -/

theorem mem_invalidateSets {e : Str × SetCompletionStats × Nat} :
    ∀ (sids : List Str) (cache : List (Str × SetCompletionStats × Nat)),
    e ∈ invalidateSets cache sids ↔ e ∈ cache ∧ e.1 ∉ sids
  | [], cache => by simp [invalidateSets]
  | sid :: rest, cache => by
    have step : invalidateSets cache (sid :: rest) =
        invalidateSets (statsCacheInvalidate cache sid) rest := rfl
    rw [step, mem_invalidateSets rest]
    rw [statsCacheInvalidate]
    simp only [List.mem_filter, List.mem_cons, decide_eq_true_eq]
    constructor
    · rintro ⟨⟨hmem, hne⟩, hnot⟩
      refine ⟨hmem, ?_⟩
      intro hor
      rcases hor with h | h
      · exact hne h
      · exact hnot h
    · rintro ⟨hmem, hnot⟩
      refine ⟨⟨hmem, ?_⟩, ?_⟩
      · intro h
        exact hnot (Or.inl h)
      · intro h
        exact hnot (Or.inr h)

theorem cacheFind_invalidateSets_of_mem (cache : List (Str × SetCompletionStats × Nat))
    (sids : List Str) (S : Str) (h : S ∈ sids) :
    cacheFind (invalidateSets cache sids) S = none := by
  rw [cacheFind]
  have hnone : (invalidateSets cache sids).find? (fun e => e.1 = S) = none := by
    rw [List.find?_eq_none]
    intro x hx
    have := (mem_invalidateSets sids cache).mp hx
    simp only [decide_eq_true_eq]
    intro hxS
    exact this.2 (hxS ▸ h)
  rw [hnone]
  rfl

/-- Collection ownership of a variant other than the mutated one is
unchanged by the mutation. -/
theorem collOwnedPos_update_ne (coll : List CollectionRow) (v vid : Str)
    (q : Int) (now : Nat) (hne : vid ≠ v) :
    collOwnedPos (if q = 0 then collDelete coll v else collUpsert coll v q now) vid
      = collOwnedPos coll vid := by
  rw [Bool.eq_iff_iff]
  simp only [collOwnedPos, List.any_eq_true, decide_eq_true_eq]
  by_cases hq : q = 0
  · rw [if_pos hq]
    constructor
    · rintro ⟨e, he, hk, hpos⟩
      exact ⟨e, (List.mem_filter.mp he).1, hk, hpos⟩
    · rintro ⟨e, he, hk, hpos⟩
      refine ⟨e, List.mem_filter.mpr ⟨he, ?_⟩, hk, hpos⟩
      simp only [decide_eq_true_eq]
      intro hcontra
      exact hne (hk ▸ hcontra ▸ rfl)
  · rw [if_neg hq, collUpsert]
    split
    · constructor
      · rintro ⟨e, he, hk, hpos⟩
        obtain ⟨e0, he0, heq⟩ := List.mem_map.mp he
        by_cases h0 : e0.variant_id = v
        · rw [if_pos h0] at heq
          exact absurd (heq ▸ hk) (by simpa using hne.symm)
        · rw [if_neg h0] at heq
          exact ⟨e0, he0, heq ▸ hk, heq ▸ hpos⟩
      · rintro ⟨e, he, hk, hpos⟩
        have h0 : ¬(e.variant_id = v) := fun hc => hne (hk ▸ hc ▸ rfl)
        refine ⟨e, List.mem_map.mpr ⟨e, he, ?_⟩, hk, hpos⟩
        rw [if_neg h0]
    · constructor
      · rintro ⟨e, he, hk, hpos⟩
        rcases List.mem_append.mp he with h | h
        · exact ⟨e, h, hk, hpos⟩
        · simp only [List.mem_singleton] at h
          exact absurd (h ▸ hk) (by simpa using hne.symm)
      · rintro ⟨e, he, hk, hpos⟩
        exact ⟨e, List.mem_append.mpr (Or.inl he), hk, hpos⟩

/-- The completion statistics depend on the collection only through the
ownership of the set's variant ids. -/
theorem calc_indep (enc : EncDb) (coll coll' : List CollectionRow) (setId : Str)
    (h : ∀ vid ∈ (setTriples enc setId).map (fun t => t.2.2),
         collOwnedPos coll vid = collOwnedPos coll' vid) :
    calculateSetCompletionStats enc coll setId
      = calculateSetCompletionStats enc coll' setId := by
  have hfilter : ((setTriples enc setId).map (fun t => t.2.2)).dedup.filter
      (fun vid => collOwnedPos coll vid)
      = ((setTriples enc setId).map (fun t => t.2.2)).dedup.filter
      (fun vid => collOwnedPos coll' vid) := by
    apply List.filter_congr
    intro vid hvid
    exact h vid (List.mem_dedup.mp hvid)
  simp only [calculateSetCompletionStats]
  rw [hfilter]

/-- C3 counterexample state: set `"S"` contains variant `"v"` via
`variant_set_appearances`, but there is no `set_cards` row for the card, and
the stats cache holds an entry for `"S"`. -/
def st3 : DbState :=
  { enc := { variants := [⟨s2l "v", s2l "c", [], [], none, none⟩],
             appearances := [⟨s2l "S", s2l "v", s2l "1", none⟩] },
    coll := [],
    cache := [(s2l "S", ⟨⟨9, 9⟩, ⟨9, 9⟩, ⟨0, 0⟩, ⟨0, 0⟩, ⟨0, 0⟩⟩, 0)] }

/-- C3 counterexample: set `"S"` contains variant `"v"` (via
`VariantSetAppearance`), but after `updateVariantQuantity("v", 1)` the cache
entry for `"S"` is still present — invalidation walks `set_cards` by the
variant's card, not `variant_set_appearances` — and a subsequent read within
the TTL window still returns the pre-mutation cached value. -/
theorem c3_counterexample :
    ((⟨s2l "S", s2l "v", s2l "1", none⟩ : AppearanceRow) ∈ st3.enc.appearances)
    ∧ cacheFind (updateVariantQuantity st3 (s2l "v") 1 5).cache (s2l "S")
        = some (⟨⟨9, 9⟩, ⟨9, 9⟩, ⟨0, 0⟩, ⟨0, 0⟩, ⟨0, 0⟩⟩, 0)
    ∧ getStatsRead (updateVariantQuantity st3 (s2l "v") 1 5) (s2l "S") 10
        = ⟨⟨9, 9⟩, ⟨9, 9⟩, ⟨0, 0⟩, ⟨0, 0⟩, ⟨0, 0⟩⟩ := by
  refine ⟨by decide, by decide, by decide⟩

/-- C3 amended: `updateVariantQuantity` synchronously invalidates the cache
entry of every set that contains the variant's card via `set_cards` — which
are exactly the sets whose statistics can depend on the variant — before it
returns; any cache entry that survives belongs to a set whose statistics are
unchanged by the mutation, so no surviving entry can serve a value differing
from a fresh computation on account of this mutation.  (Sets containing the
variant only via `VariantSetAppearance` are not invalidated, but their
statistics do not depend on the variant.) -/
theorem c3_invalidation (st : DbState) (v : Str) (q : Int) (now : Nat)
    (hnd : (st.enc.variants.map (fun u => u.id)).Nodup) :
    (∀ S, (∃ vr ∈ st.enc.variants, vr.id = v ∧
            ∃ sc ∈ st.enc.set_cards, sc.card_id = vr.card_id ∧ sc.set_id = S) →
        cacheFind (updateVariantQuantity st v q now).cache S = none)
    ∧ (∀ S d ts, (S, d, ts) ∈ (updateVariantQuantity st v q now).cache →
        calculateSetCompletionStats (updateVariantQuantity st v q now).enc
            (updateVariantQuantity st v q now).coll S
          = calculateSetCompletionStats st.enc st.coll S) := by
  have hCache : (updateVariantQuantity st v q now).cache =
      (match st.enc.variants.find? (fun u => u.id = v) with
       | some vr =>
         invalidateSets st.cache
           ((st.enc.set_cards.filter (fun sc => sc.card_id = vr.card_id)).map
             (fun sc => sc.set_id))
       | none => st.cache) := rfl
  have hEnc : (updateVariantQuantity st v q now).enc = st.enc := rfl
  have hColl : (updateVariantQuantity st v q now).coll =
      (if q = 0 then collDelete st.coll v else collUpsert st.coll v q now) := rfl
  constructor
  · intro S hS
    obtain ⟨vr, hvr, hvrid, sc, hsc, hsccard, hscset⟩ := hS
    rw [hCache]
    have hfind : ∃ vr', st.enc.variants.find? (fun u => u.id = v) = some vr' := by
      cases hf : st.enc.variants.find? (fun u => u.id = v) with
      | some vr' => exact ⟨vr', rfl⟩
      | none =>
        rw [List.find?_eq_none] at hf
        exact absurd (by simpa using hvrid) (hf vr hvr)
    obtain ⟨vr', hvr'⟩ := hfind
    rw [hvr']
    have hvr'mem := List.find?_some hvr'
    have hvr'in := List.mem_of_find?_eq_some hvr'
    have hvr'id : vr'.id = v := by simpa using hvr'mem
    have hsame : vr'.card_id = vr.card_id := by
      have h1 : vr'.id = vr.id := hvr'id.trans hvrid.symm
      have : vr' = vr := by
        have := List.inj_on_of_nodup_map hnd hvr'in hvr h1
        exact this
      rw [this]
    apply cacheFind_invalidateSets_of_mem
    refine List.mem_map.mpr ⟨sc, ?_, hscset⟩
    refine List.mem_filter.mpr ⟨hsc, ?_⟩
    simp [hsame, hsccard]
  · intro S d ts hmem
    rw [hEnc, hColl]
    apply calc_indep
    intro vid hvid
    apply collOwnedPos_update_ne
    intro hveq
    subst hveq
    obtain ⟨t, htT, htv⟩ := List.mem_map.mp hvid
    obtain ⟨sc, hsc, hscset, u, hu, hucard, hteq⟩ := mem_setTriples.mp htT
    have huid : u.id = vid := by rw [hteq] at htv; exact htv
    rw [hCache] at hmem
    cases hf : st.enc.variants.find? (fun w => w.id = vid) with
    | none =>
      rw [List.find?_eq_none] at hf
      exact hf u hu (by simpa using huid)
    | some vr' =>
      rw [hf] at hmem
      have hS : S ∈ ((st.enc.set_cards.filter
          (fun x => x.card_id = vr'.card_id)).map (fun x => x.set_id)) := by
        have hvr'id : vr'.id = vid := by
          simpa using List.find?_some hf
        have heq : u = vr' := by
          exact List.inj_on_of_nodup_map hnd hu (List.mem_of_find?_eq_some hf)
            (huid.trans hvr'id.symm)
        refine List.mem_map.mpr ⟨sc, List.mem_filter.mpr ⟨hsc, ?_⟩, hscset⟩
        simp [← heq, hucard]
      have := (mem_invalidateSets _ _).mp hmem
      exact this.2 hS

/-- Witness state for the amended C3: set `"T"` contains the card of
variant `"v"` via `set_cards`, and its stats are cached. -/
def st3b : DbState :=
  { enc := { variants := [⟨s2l "v", s2l "c", [], [], none, none⟩],
             set_cards := [⟨s2l "T", s2l "c", s2l "1", none⟩] },
    coll := [],
    cache := [(s2l "T", ⟨⟨9, 9⟩, ⟨9, 9⟩, ⟨0, 0⟩, ⟨0, 0⟩, ⟨0, 0⟩⟩, 0)] }

theorem c3_invalidation_witness :
    cacheFind (updateVariantQuantity st3b (s2l "v") 1 5).cache (s2l "T") = none :=
  (c3_invalidation st3b (s2l "v") 1 5 (by decide)).1 (s2l "T")
    ⟨⟨s2l "v", s2l "c", [], [], none, none⟩, by decide, rfl,
     ⟨s2l "T", s2l "c", s2l "1", none⟩, by decide, rfl, rfl⟩

/-! ### C4 — counterexample and witness data -/

/-- Witness encyclopedia: one set `"S"` with four cards of rarities
`C1`, `U2`, `R1` and absent, one variant each. -/
def enc4 : EncDb :=
  { set_cards := [⟨s2l "S", s2l "c1", s2l "1", some (s2l "C1")⟩,
                  ⟨s2l "S", s2l "c2", s2l "2", some (s2l "U2")⟩,
                  ⟨s2l "S", s2l "c3", s2l "3", some (s2l "R1")⟩,
                  ⟨s2l "S", s2l "c4", s2l "4", none⟩],
    variants := [⟨s2l "v1", s2l "c1", [], [], none, none⟩,
                 ⟨s2l "v2", s2l "c2", [], [], none, none⟩,
                 ⟨s2l "v3", s2l "c3", [], [], none, none⟩,
                 ⟨s2l "v4", s2l "c4", [], [], none, none⟩] }

/-- Witness collection: the `C1` card's variant and the rarity-less card's
variant are owned. -/
def coll4 : List CollectionRow := [⟨s2l "v1", 2, 0⟩, ⟨s2l "v4", 1, 0⟩]

theorem c4_completionStats_spec_witness :
    calculateSetCompletionStats enc4 coll4 (s2l "S") = linkedCardStats enc4 coll4 (s2l "S")
    ∧ linkedCardStats enc4 coll4 (s2l "S")
        = ⟨⟨2, 4⟩, ⟨1, 1⟩, ⟨0, 1⟩, ⟨0, 1⟩, ⟨1, 1⟩⟩ :=
  ⟨c4_completionStats_spec enc4 coll4 (s2l "S") (by decide), by decide⟩

/-- C4 counterexample state A (set membership): card `c` appears in set
`S` only via `variant_set_appearances` — there is no `set_cards` row — and
its appearing variant is owned. -/
def encC4a : EncDb :=
  { cards := [⟨s2l "c", s2l "C", s2l "light", s2l "t", none⟩],
    variants := [⟨s2l "v", s2l "c", [], [], none, none⟩],
    appearances := [⟨s2l "S", s2l "v", s2l "1", some (s2l "C1")⟩] }

/-- Collection for state A: the appearing variant is owned. -/
def collC4a : List CollectionRow := [⟨s2l "v", 1, 0⟩]

/-- C4 counterexample state B (ownership): card `c` appears in `S` via
variant `v1` only; the owned variant `v2` belongs to the card but does not
appear in `S`. -/
def encC4b : EncDb :=
  { cards := [⟨s2l "c", s2l "C", s2l "light", s2l "t", none⟩],
    set_cards := [⟨s2l "S", s2l "c", s2l "1", some (s2l "C1")⟩],
    variants := [⟨s2l "v1", s2l "c", [], [], none, none⟩,
                 ⟨s2l "v2", s2l "c", [], [], none, none⟩],
    appearances := [⟨s2l "S", s2l "v1", s2l "1", some (s2l "C1")⟩] }

/-- Collection for state B: only the non-appearing variant is owned. -/
def collC4b : List CollectionRow := [⟨s2l "v2", 1, 0⟩]

/-- C4 counterexample state C (rarity source): the `set_cards` row says
`C1` while the appearance says `R1`. -/
def encC4c : EncDb :=
  { cards := [⟨s2l "c", s2l "C", s2l "light", s2l "t", none⟩],
    set_cards := [⟨s2l "S", s2l "c", s2l "1", some (s2l "C1")⟩],
    variants := [⟨s2l "v", s2l "c", [], [], none, none⟩],
    appearances := [⟨s2l "S", s2l "v", s2l "1", some (s2l "R1")⟩] }

/-- C4 counterexample: `calculateSetCompletionStats` does not compute the
claim's counts over the cards appearing in the set (via
`variant_set_appearances`, `specAppearanceStats`).
State A: a card appearing only via an appearance is invisible to the code
(all counts zero) while the claim's counts are owned 1 of 1.
State B: the code counts a card as owned through a variant that does not
appear in the set, while the card's only qualifying (appearing) variant is
unowned.
State C: the code buckets by the `set_cards` rarity (`C1` → common) while
the appearance rarity is `R1` (→ rare). -/
theorem c4_counterexample :
    (calculateSetCompletionStats encC4a collC4a (s2l "S")
        = ⟨⟨0, 0⟩, ⟨0, 0⟩, ⟨0, 0⟩, ⟨0, 0⟩, ⟨0, 0⟩⟩
      ∧ specAppearanceStats encC4a collC4a (s2l "S")
        = ⟨⟨1, 1⟩, ⟨1, 1⟩, ⟨0, 0⟩, ⟨0, 0⟩, ⟨0, 0⟩⟩)
    ∧ ((calculateSetCompletionStats encC4b collC4b (s2l "S")).total.owned = 1
      ∧ (specAppearanceStats encC4b collC4b (s2l "S")).total.owned = 0)
    ∧ ((calculateSetCompletionStats encC4c [] (s2l "S")).common.total = 1
      ∧ (calculateSetCompletionStats encC4c [] (s2l "S")).rare.total = 0
      ∧ (specAppearanceStats encC4c [] (s2l "S")).rare.total = 1
      ∧ (specAppearanceStats encC4c [] (s2l "S")).common.total = 0) := by
  decide

/-! ### C2 — single-flight statistics reads -/

/-- A cache miss leaves no entry for the key behind. -/
theorem cacheFind_after_miss (cache : List (Str × SetCompletionStats × Nat))
    (k : Str) (now : Nat) (h : (statsCacheGet cache k now).1 = none) :
    cacheFind (statsCacheGet cache k now).2 k = none := by
  cases hf : cacheFind cache k with
  | none =>
    simp only [statsCacheGet, hf]
  | some dts =>
    obtain ⟨d, ts⟩ := dts
    simp only [statsCacheGet, hf] at h ⊢
    by_cases htl : now - ts < statsTTL
    · rw [if_pos htl] at h
      exact absurd h (by simp)
    · rw [if_neg htl]
      simp only
      rw [cacheFind, find_key_filter_ne (fun e => e.1) cache k]
      rfl

/-- A cache miss is still a miss on the cache state the miss left behind. -/
theorem statsCacheGet_none_after (cache : List (Str × SetCompletionStats × Nat))
    (k : Str) (now now2 : Nat) (h : (statsCacheGet cache k now).1 = none) :
    (statsCacheGet (statsCacheGet cache k now).2 k now2).1 = none := by
  have hfind : cacheFind (statsCacheGet cache k now).2 k = none :=
    cacheFind_after_miss cache k now h
  generalize hg : (statsCacheGet cache k now).2 = c2 at hfind ⊢
  simp only [statsCacheGet, hfind]

/-- In-place replacement of the cache rows keyed `k`. -/
theorem find_map_cacheSet (k : Str) (d : SetCompletionStats) (now : Nat) :
    ∀ (c : List (Str × SetCompletionStats × Nat)), (∃ e ∈ c, e.1 = k) →
    (c.map (fun e => if e.1 = k then (k, d, now) else e)).find? (fun e => e.1 = k)
      = some (k, d, now)
  | [], h => by
    obtain ⟨x, hx, _⟩ := h
    exact absurd hx (List.not_mem_nil x)
  | e :: rest, h => by
    by_cases he : e.1 = k
    · simp only [List.map_cons, if_pos he]
      rw [List.find?_cons_of_pos _ (by simp)]
    · simp only [List.map_cons, if_neg he]
      rw [List.find?_cons_of_neg _ (by simpa using he)]
      apply find_map_cacheSet k d now rest
      obtain ⟨e1, he1, hk1⟩ := h
      rcases List.mem_cons.mp he1 with h1 | h1
      · exact absurd (h1 ▸ hk1) he
      · exact ⟨e1, h1, hk1⟩

/-- Setting a key makes it the `find?` result for that key. -/
theorem cacheFind_statsCacheSet (cache : List (Str × SetCompletionStats × Nat))
    (k : Str) (d : SetCompletionStats) (now : Nat) :
    cacheFind (statsCacheSet cache k d now) k = some (d, now) := by
  rw [statsCacheSet]
  split
  · rename_i hany
    obtain ⟨e0, he0, hk0⟩ := List.any_eq_true.mp hany
    rw [cacheFind, find_map_cacheSet k d now cache ⟨e0, he0, by simpa using hk0⟩]
    rfl
  · rename_i hany
    rw [cacheFind, List.find?_append]
    have h1 : cache.find? (fun e => e.1 = k) = none := by
      rw [List.find?_eq_none]
      intro x hx hc
      exact hany (List.any_eq_true.mpr ⟨x, hx, hc⟩)
    rw [h1]
    simp

/-- C2: single-flight per key.
(1) If a computation for the key is in flight (a lock is present) and the
cache misses, a caller joins exactly that computation: it receives the same
in-flight promise, and no new computation is started (the started-computation
log and the locks are unchanged).
(2) From a state with a cache miss and no lock, two consecutive callers
produce exactly one computation: the first starts it, the second joins it,
and the log grows by exactly that one entry across both calls.
(3) When the computation completes successfully, its result is stored in the
cache under a fresh timestamp and the lock for the key is cleared.
(4) When it fails, the lock is still cleared (the key is not left
permanently in flight) and the cache is untouched. -/
theorem statsEnter_miss (e : StatsEngine) (k : Str) (now : Nat)
    (hmiss : (statsCacheGet e.cache k now).1 = none) :
    statsEnter e k now =
      (match e.locks.find? (fun l => l.1 = k) with
       | some l => (.joins l.2, { e with cache := (statsCacheGet e.cache k now).2 })
       | none =>
         (.starts e.nextPid,
          { cache := (statsCacheGet e.cache k now).2,
            locks := (k, e.nextPid) :: e.locks,
            nextPid := e.nextPid + 1,
            startedLog := e.startedLog ++ [(k, e.nextPid)] })) := by
  cases hg : statsCacheGet e.cache k now with
  | mk o cache2 =>
    rw [hg] at hmiss
    simp only at hmiss
    subst hmiss
    rw [statsEnter, hg]

theorem c2_single_flight (e : StatsEngine) (k : Str) (now now2 : Nat)
    (d : SetCompletionStats) :
    (∀ lk, (statsCacheGet e.cache k now).1 = none →
       e.locks.find? (fun l => l.1 = k) = some lk →
       (statsEnter e k now).1 = .joins lk.2
         ∧ (statsEnter e k now).2.startedLog = e.startedLog
         ∧ (statsEnter e k now).2.locks = e.locks)
    ∧ ((statsCacheGet e.cache k now).1 = none →
       e.locks.find? (fun l => l.1 = k) = none →
       (statsEnter e k now).1 = .starts e.nextPid
         ∧ (statsEnter (statsEnter e k now).2 k now2).1 = .joins e.nextPid
         ∧ (statsEnter (statsEnter e k now).2 k now2).2.startedLog
             = e.startedLog ++ [(k, e.nextPid)])
    ∧ (cacheFind (statsSettle e k (some d) now).cache k = some (d, now)
         ∧ (statsSettle e k (some d) now).locks.find? (fun l => l.1 = k) = none)
    ∧ ((statsSettle e k none now).cache = e.cache
         ∧ (statsSettle e k none now).locks.find? (fun l => l.1 = k) = none) := by
  refine ⟨?_, ?_, ?_, ?_⟩
  · intro lk hmiss hlk
    rw [statsEnter_miss e k now hmiss, hlk]
    exact ⟨rfl, rfl, rfl⟩
  · intro hmiss hlk
    rw [statsEnter_miss e k now hmiss, hlk]
    have hmiss2 : (statsCacheGet (statsCacheGet e.cache k now).2 k now2).1 = none :=
      statsCacheGet_none_after e.cache k now now2 hmiss
    refine ⟨rfl, ?_, ?_⟩
    · rw [statsEnter_miss
        ⟨(statsCacheGet e.cache k now).2, (k, e.nextPid) :: e.locks,
         e.nextPid + 1, e.startedLog ++ [(k, e.nextPid)]⟩ k now2 hmiss2]
      rw [List.find?_cons_of_pos _ (by simp)]
    · rw [statsEnter_miss
        ⟨(statsCacheGet e.cache k now).2, (k, e.nextPid) :: e.locks,
         e.nextPid + 1, e.startedLog ++ [(k, e.nextPid)]⟩ k now2 hmiss2]
      rw [List.find?_cons_of_pos _ (by simp)]
  · constructor
    · show cacheFind (statsCacheSet e.cache k d now) k = some (d, now)
      exact cacheFind_statsCacheSet e.cache k d now
    · show (e.locks.filter (fun l => ¬(l.1 = k))).find? (fun l => l.1 = k) = none
      exact find_key_filter_ne (fun l => l.1) e.locks k
  · constructor
    · rfl
    · show (e.locks.filter (fun l => ¬(l.1 = k))).find? (fun l => l.1 = k) = none
      exact find_key_filter_ne (fun l => l.1) e.locks k

theorem c2_single_flight_witness :
    (statsEnter {} (s2l "S") 0).1 = .starts 0
    ∧ (statsEnter (statsEnter {} (s2l "S") 0).2 (s2l "S") 1).1 = .joins 0
    ∧ (statsEnter (statsEnter {} (s2l "S") 0).2 (s2l "S") 1).2.startedLog
        = [(s2l "S", 0)] :=
  (c2_single_flight {} (s2l "S") 0 1 ⟨⟨0, 0⟩, ⟨0, 0⟩, ⟨0, 0⟩, ⟨0, 0⟩, ⟨0, 0⟩⟩).2.1
    rfl rfl

/-! ### C6 — card ordering in `getCardsInSet` -/

/-- C8: `searchCardsByName` returns exactly the grouped cards whose
normalized name (lower-cased, apostrophe and dash glyphs unified) contains
the normalized query as a substring, or whose fuzzy form
(punctuation/spaces stripped) contains the fuzzy query; exact-normalized
matches carry priority 1 and fuzzy-only matches priority 2; the result is
sorted by priority then name; and the queries `Han's`, `Hans` and
`Han’s` (curly apostrophe) all return exactly the card named
`Han's Speeder`. -/
theorem c8_search_normalization :
    (∀ (enc : EncDb) (q : Str),
        List.Sorted searchRel (searchCardsByName enc q))
    ∧ (∀ (enc : EncDb) (q : Str) (c : CardRow) (pr : Nat),
        (c, pr) ∈ searchCardsByName enc q ↔
          (c ∈ searchGroups enc
           ∧ (strIncludes (normalizeSearchString c.name) (normalizeSearchString q)
              ∨ strIncludes (fuzzyStrip (normalizeSearchString c.name))
                  (fuzzyStrip (normalizeSearchString q)))
           ∧ pr = (if strIncludes (normalizeSearchString c.name)
                       (normalizeSearchString q) then 1 else 2)))
    ∧ ((searchCardsByName encH (s2l "Han's")).map (fun r => r.1.name)
        = [s2l "Han's Speeder"]
       ∧ (searchCardsByName encH (s2l "Hans")).map (fun r => r.1.name)
        = [s2l "Han's Speeder"]
       ∧ (searchCardsByName encH qCurly).map (fun r => r.1.name)
        = [s2l "Han's Speeder"]) := by
  refine ⟨?_, ?_, by decide, by decide, by decide⟩
  · intro enc q
    exact List.sorted_insertionSort searchRel _
  · intro enc q c pr
    rw [searchCardsByName]
    rw [(List.perm_insertionSort searchRel _).mem_iff]
    rw [List.mem_filterMap]
    constructor
    · rintro ⟨c0, hc0, hf⟩
      have hcond : (strIncludes (normalizeSearchString c0.name)
          (normalizeSearchString q)
          || strIncludes (fuzzyStrip (normalizeSearchString c0.name))
              (fuzzyStrip (normalizeSearchString q))) = true := by
        by_contra hc
        rw [if_neg hc] at hf
        exact absurd hf (by simp)
      rw [if_pos hcond] at hf
      have hf2 : c0 = c ∧ (if strIncludes (normalizeSearchString c0.name)
          (normalizeSearchString q) = true then (1 : Nat) else 2) = pr := by
        injection hf with h
        exact ⟨congrArg Prod.fst h, congrArg Prod.snd h⟩
      obtain ⟨rfl, hpr⟩ := hf2
      refine ⟨hc0, ?_, hpr.symm⟩
      simpa using hcond
    · rintro ⟨hcg, hmatch, hpr⟩
      refine ⟨c, hcg, ?_⟩
      have hcond : (strIncludes (normalizeSearchString c.name)
          (normalizeSearchString q)
          || strIncludes (fuzzyStrip (normalizeSearchString c.name))
              (fuzzyStrip (normalizeSearchString q))) = true := by
        simpa using hmatch
      rw [if_pos hcond, hpr]

/-! ### C1 — atomic reconciliation and rollback -/

/-- A fault-free transaction run applies all statements in order. -/
theorem runTx_none_ok : ∀ (fs : List (EncDb → EncDb)) (enc : EncDb),
    runTx fs none enc = .ok (fs.foldl (fun e f => f e) enc)
  | [], _ => rfl
  | f :: fs, enc => runTx_none_ok fs (f enc)

/-- A run of `seedEncyclopedia` with no fault injected, from a state whose
status is not up-to-date, returns `ok` of that status. -/
theorem seed_retry_ok (ds : Dataset) (st2 : DbState) (s : SeedStatus)
    (h : checkDatabaseStatus st2.enc = s) (hne : ¬(s = SeedStatus.upToDate)) :
    (seedEncyclopedia ds none st2).1 = .ok s := by
  cases s with
  | upToDate => exact absurd rfl hne
  | firstTime =>
    have hne2 : (SeedStatus.firstTime = SeedStatus.migration) = False := by simp
    simp only [seedEncyclopedia, h, hne2, if_false]
    rw [runTx_none_ok]
  | migration =>
    have heq : (SeedStatus.migration = SeedStatus.migration) = True := by simp
    simp only [seedEncyclopedia, h, heq, if_true]
    rw [runTx_none_ok]

/-- C1: whenever `seedEncyclopedia` fails (any insert statement of the
transaction raising an error), the whole insert sequence is rolled back:
no row inserted by this reconciliation remains committed (the four
always-cleared tables are empty, and the appearance/pricing tables are
either empty or exactly their pre-call contents), the `db_version` marker is
not advanced (`_metadata` is never dropped, so the status detection is
unchanged), the error is propagated to the caller, and a retry of the call
with the same inputs succeeds, re-attempting from the same
first-time/migration detection. -/
theorem c1_atomic_rollback (ds : Dataset) (failAt : Option Nat) (st : DbState)
    (herr : (seedEncyclopedia ds failAt st).1 = .error ()) :
    (seedEncyclopedia ds failAt st).2.enc.metadata = st.enc.metadata
    ∧ checkDatabaseStatus (seedEncyclopedia ds failAt st).2.enc
        = checkDatabaseStatus st.enc
    ∧ (seedEncyclopedia ds failAt st).2.enc.sets = []
    ∧ (seedEncyclopedia ds failAt st).2.enc.cards = []
    ∧ (seedEncyclopedia ds failAt st).2.enc.set_cards = []
    ∧ (seedEncyclopedia ds failAt st).2.enc.variants = []
    ∧ ((seedEncyclopedia ds failAt st).2.enc.appearances = []
        ∨ (seedEncyclopedia ds failAt st).2.enc.appearances = st.enc.appearances)
    ∧ ((seedEncyclopedia ds failAt st).2.enc.card_pricing = []
        ∨ (seedEncyclopedia ds failAt st).2.enc.card_pricing = st.enc.card_pricing)
    ∧ (seedEncyclopedia ds failAt st).2.coll = st.coll
    ∧ (seedEncyclopedia ds none (seedEncyclopedia ds failAt st).2).1
        = .ok (checkDatabaseStatus st.enc) := by
  cases hs : checkDatabaseStatus st.enc with
  | upToDate =>
    simp only [seedEncyclopedia, hs] at herr
    exact absurd herr (by simp)
  | firstTime =>
    have hne2 : (SeedStatus.firstTime = SeedStatus.migration) = False := by simp
    simp only [seedEncyclopedia, hs, hne2, if_false] at herr ⊢
    cases hr : runTx (txStatements ds) failAt { metadata := st.enc.metadata, sets := [], cards := [], set_cards := [], variants := [], appearances := st.enc.appearances, card_pricing := st.enc.card_pricing, nextPricingId := st.enc.nextPricingId } with
    | ok enc1 =>
      rw [hr] at herr
      simp at herr
    | error u =>
      refine ⟨?_, ?_, ?_, ?_, ?_, ?_, ?_, ?_, ?_, ?_⟩
      · trivial
      · trivial
      · trivial
      · trivial
      · trivial
      · trivial
      · first | trivial | exact Or.inr rfl
      · first | trivial | exact Or.inr rfl
      · trivial
      · exact seed_retry_ok ds _ .firstTime hs (by simp)
  | migration =>
    have heq : (SeedStatus.migration = SeedStatus.migration) = True := by simp
    simp only [seedEncyclopedia, hs, heq, if_true] at herr ⊢
    cases hr : runTx (txStatements ds) failAt { metadata := st.enc.metadata, sets := [], cards := [], set_cards := [], variants := [], appearances := [], card_pricing := [], nextPricingId := 1 } with
    | ok enc1 =>
      rw [hr] at herr
      simp at herr
    | error u =>
      refine ⟨?_, ?_, ?_, ?_, ?_, ?_, ?_, ?_, ?_, ?_⟩
      · trivial
      · trivial
      · trivial
      · trivial
      · trivial
      · trivial
      · first | trivial | exact Or.inl rfl
      · first | trivial | exact Or.inl rfl
      · trivial
      · exact seed_retry_ok ds _ .migration hs (by simp)

theorem c1_atomic_rollback_witness :
    (seedEncyclopedia {} none (seedEncyclopedia {} (some 0) {}).2).1
      = .ok (checkDatabaseStatus ({} : DbState).enc) :=
  (c1_atomic_rollback {} (some 0) {} rfl).2.2.2.2.2.2.2.2.2

/-! ### C5 — orphan purge after migration -/

/-- C5: after a successful reconciliation that performed a migration, every
remaining collection entry references a variant that exists in the rebuilt
`variants` table, and an entry whose variant exists is retained regardless
of `variant_set_appearances` (orphan-hood is keyed only on variant
existence). -/
theorem c5_orphan_purge (ds : Dataset) (st : DbState)
    (hmig : checkDatabaseStatus st.enc = .migration) :
    (seedEncyclopedia ds none st).1 = .ok .migration
    ∧ (∀ e ∈ (seedEncyclopedia ds none st).2.coll,
        e.variant_id ∈ (seedEncyclopedia ds none st).2.enc.variants.map
          (fun v => v.id))
    ∧ (∀ e ∈ st.coll,
        e.variant_id ∈ (seedEncyclopedia ds none st).2.enc.variants.map
          (fun v => v.id)
        → e ∈ (seedEncyclopedia ds none st).2.coll) := by
  have heq : (SeedStatus.migration = SeedStatus.migration) = True := by simp
  simp only [seedEncyclopedia, hmig, heq, if_true]
  rw [runTx_none_ok]
  simp only
  refine ⟨by trivial, ?_, ?_⟩
  · intro e he
    have := (List.mem_filter.mp he).2
    simpa using this
  · intro e he hmem
    refine List.mem_filter.mpr ⟨he, ?_⟩
    simpa using hmem

/-- Witness migration state for C5: version 5 store, two owned entries. -/
def stC5 : DbState :=
  { enc := { metadata := some 5 },
    coll := [⟨s2l "vA", 2, 0⟩, ⟨s2l "vB", 1, 0⟩] }

/-- Witness dataset for C5: only variant `vA` survives, with **zero**
appearance rows. -/
def dsC5 : Dataset :=
  { variants := [⟨s2l "vA", s2l "cA", [], [], none⟩] }

theorem c5_orphan_purge_witness :
    (seedEncyclopedia dsC5 none stC5).1 = .ok .migration
    ∧ (⟨s2l "vA", 2, 0⟩ : CollectionRow) ∈ (seedEncyclopedia dsC5 none stC5).2.coll :=
  ⟨(c5_orphan_purge dsC5 stC5 (by decide)).1,
   (c5_orphan_purge dsC5 stC5 (by decide)).2.2 ⟨s2l "vA", 2, 0⟩ (by decide) (by decide)⟩

end Swccg
